import Mathlib

/-!
Shallow embedding of the content-extraction and structured-data-reconciliation
pipeline of the job-assistant repository
(src/backend/services/scraper.py and src/backend/services/gemini.py),
together with theorems settling the frozen claims about it.

Strings are modelled as Lean `String`s (lists of characters).  Python's
whitespace class (the ASCII whitespace characters matched by the regex
class \s and stripped by str.strip on the inputs of interest) is modelled
by `pyIsSpace`; case-insensitive matching (re.IGNORECASE on the ASCII
patterns appearing in the source) is modelled with `Char.toLower`, whose
Lean core definition is exactly ASCII case folding.
-/

/-- ASCII whitespace as matched by Python's regex class \s and str.strip:
space, tab, newline, carriage return, vertical tab, form feed. -/
def pyIsSpace (c : Char) : Bool :=
  c == '\x20' || c == '\t' || c == '\n' || c == '\r' || c == '\x0b' || c == '\x0c'

/-- One step of re.sub(r"\s+", " ", content): every maximal run of whitespace
is replaced by a single space.  The Boolean flag records whether we are
inside a whitespace run whose single replacement space was already emitted. -/
def collapseAux : Bool → List Char → List Char
  | _, [] => []
  | inRun, c :: cs =>
    if pyIsSpace c then
      if inRun then collapseAux true cs else '\x20' :: collapseAux true cs
    else
      c :: collapseAux false cs

/-- re.sub(r"\s+", " ", content) on a list of characters. -/
def collapseWs (l : List Char) : List Char := collapseAux false l

/-- Remove trailing whitespace: reverse, drop leading whitespace, reverse. -/
def dropTrailWs (l : List Char) : List Char :=
  (l.reverse.dropWhile pyIsSpace).reverse

/-- Python str.strip() on a list of characters: remove leading and trailing
whitespace. -/
def stripWs (l : List Char) : List Char :=
  dropTrailWs (l.dropWhile pyIsSpace)

/-- Python str.strip() on strings. -/
def pyStrip (s : String) : String := String.mk (stripWs s.data)

/-- Case-sensitive or case-insensitive prefix match of a word against a
character list; on success returns the remaining characters after the word.
With `ci = true` characters are compared after ASCII lowering, the way
re.IGNORECASE compares the ASCII literals of the source patterns. -/
def ciStartsWith (ci : Bool) : List Char → List Char → Option (List Char)
  | [], s => some s
  | _ :: _, [] => none
  | a :: wt, c :: cs =>
    if (if ci then c.toLower == a.toLower else c == a) then ciStartsWith ci wt cs
    else none

/-- Python's `needle in haystack` substring test on character lists. -/
def containsSub (needle : List Char) : List Char → Bool
  | [] => (ciStartsWith false needle []).isSome
  | c :: cs => (ciStartsWith false needle (c :: cs)).isSome || containsSub needle cs

/-- Python's `needle in haystack` on strings. -/
def strContains (hay needle : String) : Bool := containsSub needle.data hay.data

/-- Python str.split() with no argument: split on whitespace runs, dropping
empty pieces. -/
def splitWsAux (cur : List Char) (acc : List (List Char)) : List Char → List (List Char)
  | [] => if cur = [] then acc.reverse else (cur.reverse :: acc).reverse
  | c :: cs =>
    if pyIsSpace c then
      if cur = [] then splitWsAux [] acc cs else splitWsAux [] (cur.reverse :: acc) cs
    else splitWsAux (c :: cur) acc cs

/-- Python str.split() on a list of characters. -/
def splitWs (l : List Char) : List (List Char) := splitWsAux [] [] l

/-- Python str.lower() restricted to ASCII case folding. -/
def lowerStr (s : String) : String := String.mk (s.data.map Char.toLower)

/-- Python sep.join(xs). -/
def joinSep (sep : String) : List String → String
  | [] => ""
  | [x] => x
  | x :: y :: rest => x ++ sep ++ joinSep sep (y :: rest)

/-!
A small matching engine for the restricted regular expressions used by the
source: sequences of literal-word alternations separated by `\s+` (or `\s*`),
with at most one optional group.  Matching follows Python re semantics:
alternatives are tried left to right, `\s+`/`\s*` are greedy with
backtracking, an optional group is tried before being skipped.
-/

/-- One token of a source pattern. -/
inductive Tok where
  | lit (alts : List (List Char))
  | wsPlus
  | wsStar
  | opt (ts : List Tok)

mutual
/-- Size measure used to seed the fuel of the matcher. -/
def tokSize : Tok → Nat
  | .lit _ => 1
  | .wsPlus => 1
  | .wsStar => 1
  | .opt ts => 1 + toksSize ts
def toksSize : List Tok → Nat
  | [] => 0
  | t :: ts => tokSize t + toksSize ts
end

/-- Try the alternatives of a literal group in order; on a prefix match run
the continuation, falling through to later alternatives when it fails. -/
def tryAlts (ci : Bool) (matchRest : List Char → Option (List Char)) :
    List (List Char) → List Char → Option (List Char)
  | [], _ => none
  | a :: more, s =>
    match ciStartsWith ci a s with
    | some s1 =>
      match matchRest s1 with
      | some r => some r
      | none => tryAlts ci matchRest more s
    | none => tryAlts ci matchRest more s

/-- Greedy `\s+`: try consuming k whitespace characters for k from the length
of the maximal run down to 1. -/
def tryWsPlus (matchRest : List Char → Option (List Char)) (s : List Char) : Nat → Option (List Char)
  | 0 => none
  | k + 1 =>
    match matchRest (s.drop (k + 1)) with
    | some r => some r
    | none => tryWsPlus matchRest s k

/-- Greedy `\s*`: like `\s+` but zero consumed characters is also tried. -/
def tryWsStar (matchRest : List Char → Option (List Char)) (s : List Char) : Nat → Option (List Char)
  | 0 => matchRest s
  | k + 1 =>
    match matchRest (s.drop (k + 1)) with
    | some r => some r
    | none => tryWsStar matchRest s k

/-- Match a token sequence at the start of `s`; on success returns the suffix
after the matched span.  Fuel-structured; seeded with `toksSize`, which every
recursive call preserves as an upper bound. -/
def matchToksF (ci : Bool) : Nat → List Tok → List Char → Option (List Char)
  | _, [], s => some s
  | 0, _ :: _, _ => none
  | fuel + 1, .lit alts :: rest, s => tryAlts ci (matchToksF ci fuel rest) alts s
  | fuel + 1, .wsPlus :: rest, s =>
    tryWsPlus (matchToksF ci fuel rest) s (s.takeWhile pyIsSpace).length
  | fuel + 1, .wsStar :: rest, s =>
    tryWsStar (matchToksF ci fuel rest) s (s.takeWhile pyIsSpace).length
  | fuel + 1, .opt ts :: rest, s =>
    match matchToksF ci fuel (ts ++ rest) s with
    | some r => some r
    | none => matchToksF ci fuel rest s

/-- A whole pattern: a token sequence plus its case-sensitivity flag. -/
structure Pat where
  ci : Bool
  toks : List Tok

/-- Match a pattern at the start of `s`. -/
def matchPat (p : Pat) (s : List Char) : Option (List Char) :=
  matchToksF p.ci (toksSize p.toks) p.toks s

/-- re.sub(pattern, "", s): scan left to right, delete every non-overlapping
match (continuing after the deleted span), keep characters of failed
positions.  A match consuming nothing is treated as no match (the source
patterns cannot match the empty string).  Fuel-structured on the length. -/
def removeAllAux (p : Pat) : Nat → List Char → List Char
  | _, [] => []
  | 0, s => s
  | fuel + 1, c :: cs =>
    match matchPat p (c :: cs) with
    | some rem =>
      if rem.length < cs.length + 1 then removeAllAux p fuel rem
      else c :: removeAllAux p fuel cs
    | none => c :: removeAllAux p fuel cs

/-- re.sub(pattern, "", s) on a list of characters. -/
def removeAllPat (p : Pat) (s : List Char) : List Char := removeAllAux p s.length s

/-- Is there a position where the pattern matches, consuming at least one
character? -/
def hasMatch (p : Pat) : List Char → Bool
  | [] => false
  | c :: cs =>
    (match matchPat p (c :: cs) with
     | some rem => decide (rem.length < cs.length + 1)
     | none => false) || hasMatch p cs

/-- Literal token helper. -/
def litT (ws : List String) : Tok := Tok.lit (ws.map String.data)

/-- The ten case-insensitive boilerplate patterns removed by
JobScraper._clean_content, in source order. -/
def patterns_to_remove : List Pat :=
  [ ⟨true, [litT ["Cookie"], .wsPlus, litT ["Policy", "Notice", "Settings"]]⟩,
    ⟨true, [litT ["Privacy"], .wsPlus, litT ["Policy"]]⟩,
    ⟨true, [litT ["Terms"], .wsPlus, .opt [litT ["of"], .wsPlus], litT ["Use", "Service"]]⟩,
    ⟨true, [litT ["Sign"], .wsPlus, litT ["in", "up", "In", "Up"]]⟩,
    ⟨true, [litT ["Subscribe"], .wsPlus, litT ["to"]]⟩,
    ⟨true, [litT ["Follow"], .wsPlus, litT ["us"]]⟩,
    ⟨true, [litT ["Share"], .wsPlus, litT ["this"], .wsPlus, litT ["job"]]⟩,
    ⟨true, [litT ["Apply"], .wsPlus, litT ["now", "online"]]⟩,
    ⟨true, [litT ["Save"], .wsPlus, .opt [litT ["this"], .wsPlus], litT ["job"]]⟩,
    ⟨true, [litT ["Report"], .wsPlus, litT ["this"], .wsPlus, litT ["job"]]⟩ ]

/-- The boilerplate-removal passes of JobScraper._clean_content, applied in
source order. -/
def removePatternsL (s : List Char) : List Char :=
  patterns_to_remove.foldl (fun acc p => removeAllPat p acc) s

/-- Boilerplate-removal passes on strings. -/
def removePatterns (s : String) : String := String.mk (removePatternsL s.data)

/-- JobScraper._clean_content: collapse whitespace runs to single spaces,
remove the boilerplate patterns case-insensitively, collapse again and strip. -/
def clean_content (content : String) : String :=
  String.mk (stripWs (collapseWs (removePatternsL (collapseWs content.data))))

/-!
A shallow model of the parsed HTML document (the BeautifulSoup collaborator):
a tree of elements carrying their tag name and attribute list, and text
nodes.  `NodeList` is a separate inductive so that all traversals are
structurally recursive and kernel-reducible.
-/

mutual
/-- An HTML node: an element with tag, attributes and children, or a text node. -/
inductive Node where
  | elem (tag : String) (attrs : List (String × String)) (children : NodeList)
  | text (s : String)
/-- A sequence of sibling nodes. -/
inductive NodeList where
  | nil
  | cons (head : Node) (tail : NodeList)
end

/-- Attribute lookup on an element's attribute list. -/
def attrOf (attrs : List (String × String)) (name : String) : Option String :=
  match attrs.find? (fun kv => kv.1 == name) with
  | some kv => some kv.2
  | none => none

mutual
/-- The text strings of all descendant text nodes, in document order. -/
def textsOf : Node → List String
  | .elem _ _ ch => textsOfList ch
  | .text s => [s]
def textsOfList : NodeList → List String
  | .nil => []
  | .cons n l => textsOf n ++ textsOfList l
end

/-- BeautifulSoup get_text(strip=True): each descendant string stripped,
empty results dropped, the rest joined without separator. -/
def getTextStrip (n : Node) : String :=
  joinSep "" (((textsOf n).map pyStrip).filter (fun s => s ≠ ""))

/-- get_text(strip=True) over a whole node list (the soup object itself). -/
def getTextStripAll (l : NodeList) : String :=
  joinSep "" (((textsOfList l).map pyStrip).filter (fun s => s ≠ ""))

/-- The CSS selector forms used by the source. -/
inductive Sel where
  | tagSel (t : String)
  | classWord (w : String)
  | idEq (v : String)
  | classSub (sub : String)
  | idSub (sub : String)
  | attrEq (name val : String)

/-- The class attribute as soupsieve sees it for attribute-substring
selectors: the whitespace-split class names rejoined with single spaces. -/
def classStrOf (attrs : List (String × String)) : Option String :=
  match attrOf attrs "class" with
  | some cv => some (joinSep " " ((splitWs cv.data).map String.mk))
  | none => none

/-- Whether one element matches a selector. -/
def selMatches (sel : Sel) (tag : String) (attrs : List (String × String)) : Bool :=
  match sel with
  | .tagSel t => tag == t
  | .classWord w =>
    match attrOf attrs "class" with
    | some cv => (splitWs cv.data).map String.mk |>.contains w
    | none => false
  | .idEq v => attrOf attrs "id" == some v
  | .classSub sub =>
    match classStrOf attrs with
    | some cs => containsSub sub.data cs.data
    | none => false
  | .idSub sub =>
    match attrOf attrs "id" with
    | some iv => containsSub sub.data iv.data
    | none => false
  | .attrEq name val => attrOf attrs name == some val

mutual
/-- soup.select(sel): all matching elements in document (pre-)order. -/
def selectNode (sel : Sel) : Node → List Node
  | .text _ => []
  | .elem t a ch =>
    (if selMatches sel t a then [Node.elem t a ch] else []) ++ selectList sel ch
def selectList (sel : Sel) : NodeList → List Node
  | .nil => []
  | .cons n l => selectNode sel n ++ selectList sel l
end

mutual
/-- soup.find(tag): the first element with the given tag, in document order. -/
def findTagNode (tag : String) : Node → Option Node
  | .text _ => none
  | .elem t a ch =>
    if t == tag then some (Node.elem t a ch) else findTagList tag ch
def findTagList (tag : String) : NodeList → Option Node
  | .nil => none
  | .cons n l =>
    match findTagNode tag n with
    | some e => some e
    | none => findTagList tag l
end

/-- `" ".join([elem.get_text(strip=True) for elem in elements])`. -/
def joinTexts (els : List Node) : String := joinSep " " (els.map getTextStrip)

/-!
Model of urllib.parse.urlparse restricted to the fields the source reads
(scheme and netloc; urlparse delegates both to urlsplit unchanged).
Modelled from CPython: leading C0-control/space characters are stripped,
tab/CR/LF are removed everywhere, a scheme is split off when the text before
the first colon is a letter followed by letters/digits/+-./, and the netloc
is the span after a leading "//" up to the first of "/?#".  Mismatched
square brackets in the netloc raise ValueError; the further validation of a
well-bracketed IPv6/IPvFuture host (_check_bracketed_host) and the NFKC
check (_checknetloc) are not modelled — no theorem below exercises them. -/

/-- C0 control characters and space, as stripped from the front of a URL. -/
def isC0OrSpace (c : Char) : Bool := decide (c.toNat ≤ 32)

/-- Tab, CR and LF, removed from anywhere in a URL. -/
def isUnsafeUrlByte (c : Char) : Bool := c == '\t' || c == '\r' || c == '\n'

/-- Characters allowed after the first character of a URL scheme. -/
def isSchemeChar (c : Char) : Bool := c.isAlpha || c.isDigit || c == '+' || c == '-' || c == '.'

/-- Split a character list at the first colon: the part before and after. -/
def splitAtColon : List Char → Option (List Char × List Char)
  | [] => none
  | c :: cs =>
    if c = ':' then some ([], cs)
    else
      match splitAtColon cs with
      | some (b, a) => some (c :: b, a)
      | none => none

/-- The scheme and network-location components of urlsplit's result. -/
structure SplitResult where
  scheme : String
  netloc : String

/-- urllib.parse.urlsplit restricted to scheme and netloc; `Except` models a
raised ValueError. -/
def pyUrlsplit (url : String) : Except String SplitResult :=
  let u0 := (url.data.dropWhile isC0OrSpace).filter (fun c => !isUnsafeUrlByte c)
  let (scheme, rest) :=
    match splitAtColon u0 with
    | some (before, after) =>
      match before with
      | [] => (([] : List Char), u0)
      | b0 :: btail =>
        if b0.isAlpha && btail.all isSchemeChar then (before.map Char.toLower, after)
        else (([] : List Char), u0)
    | none => (([] : List Char), u0)
  match rest with
  | '/' :: '/' :: r2 =>
    let netloc := r2.takeWhile (fun c => !(c == '/' || c == '?' || c == '#'))
    if (netloc.contains '[' && !netloc.contains ']') ||
       (netloc.contains ']' && !netloc.contains '[') then
      Except.error "Invalid IPv6 URL"
    else
      Except.ok ⟨String.mk scheme, String.mk netloc⟩
  | _ => Except.ok ⟨String.mk scheme, ""⟩

/-- JobScraper._is_valid_url: urlparse succeeds and both scheme and netloc
are non-empty (Python truthiness of the two strings); a raised exception
yields False. -/
def is_valid_url (url : String) : Bool :=
  match pyUrlsplit url with
  | .ok r => r.scheme != "" && r.netloc != ""
  | .error _ => false

/-- JobScraper._get_site_selectors' table, in source (insertion) order. -/
def site_selectors_table : List (String × List Sel) :=
  [ ("linkedin.com",
     [.classWord "description__text", .classWord "jobs-description-content__text",
      .classWord "jobs-box__html-content"]),
    ("indeed.com",
     [.idEq "jobDescriptionText", .classWord "jobsearch-jobDescriptionText",
      .classWord "jobsearch-JobComponent-description"]),
    ("glassdoor.com",
     [.idEq "JobDescContainer", .classWord "jobDescriptionContent",
      .attrEq "data-test" "jobDescription"]),
    ("monster.com", [.idEq "JobDescription", .classWord "job-description"]),
    ("ziprecruiter.com", [.classWord "job_description", .attrEq "data-testid" "job-description"]),
    ("careerbuilder.com", [.classWord "job-description", .idEq "job-summary"]) ]

/-- JobScraper._get_site_selectors: first table entry whose key is a
substring of the domain; otherwise the empty list. -/
def get_site_selectors (domain : String) : List Sel :=
  match site_selectors_table.find? (fun e => strContains domain e.1) with
  | some e => e.2
  | none => []

/-- The fixed fallback selector list of JobScraper._extract_job_content,
in source order. -/
def common_selectors : List Sel :=
  [ .classSub "job-description", .classSub "job-detail", .classSub "description",
    .idSub "job-description", .idSub "description",
    .tagSel "main", .classWord "content", .idEq "content", .tagSel "article" ]

/-- One selector loop of _extract_job_content: the first selector with a
non-empty element list whose joined text is longer than 100 characters. -/
def trySelectors (soup : NodeList) : List Sel → Option String
  | [] => none
  | sel :: rest =>
    match selectList sel soup with
    | [] => trySelectors soup rest
    | e :: es =>
      let content := joinTexts (e :: es)
      if 100 < content.length then some content else trySelectors soup rest

/-- urlparse(url).netloc as read inside _extract_job_content.  Within
scrape_job_posting the error case is unreachable (the validator has already
parsed the same URL successfully); standalone it is modelled as "". -/
def netlocOfUrl (url : String) : String :=
  match pyUrlsplit url with
  | .ok r => r.netloc
  | .error _ => ""

/-- JobScraper._extract_job_content: site-specific selectors, then the
common selectors, then the body text, then the whole document text. -/
def extract_job_content (soup : NodeList) (url : String) : String :=
  let domain := lowerStr (netlocOfUrl url)
  match trySelectors soup (get_site_selectors domain) with
  | some c => c
  | none =>
    match trySelectors soup common_selectors with
    | some c => c
    | none =>
      match findTagList "body" soup with
      | some body => getTextStrip body
      | none => getTextStripAll soup

/-- JobScraper._extract_page_title: title text, else first h1 text, else
the literal "Job Posting". -/
def extract_page_title (soup : NodeList) : String :=
  match findTagList "title" soup with
  | some t => getTextStrip t
  | none =>
    match findTagList "h1" soup with
    | some h => getTextStrip h
    | none => "Job Posting"

/-- An exception raised by the network/parsing collaborators inside the
try block of scrape_job_posting: a requests.exceptions.RequestException or
any other Exception, with its message. -/
inductive PyExc where
  | reqExc (msg : String)
  | otherExc (msg : String)

/-- The record returned by scrape_job_posting.  Its five fields are exactly
the five keys of every dict the source returns. -/
structure ScrapeResult where
  success : Bool
  error : Option String
  content : String
  title : String
  url : String
deriving DecidableEq

/-- JobScraper.scrape_job_posting.  The collaborator pipeline requests.get +
raise_for_status + BeautifulSoup is modelled as one oracle from the URL to
either a parsed document or a raised exception; everything after it in the
try block is pure.  All four return paths of the source are reproduced. -/
def scrape_job_posting (fetchParse : String → Except PyExc NodeList) (url : String) :
    ScrapeResult :=
  if is_valid_url url then
    match fetchParse url with
    | .ok soup =>
      { success := true, error := none,
        content := clean_content (extract_job_content soup url),
        title := extract_page_title soup, url := url }
    | .error (.reqExc m) =>
      { success := false, error := some ("Network error: " ++ m),
        content := "", title := "", url := url }
    | .error (.otherExc m) =>
      { success := false, error := some ("Scraping error: " ++ m),
        content := "", title := "", url := url }
  else
    { success := false, error := some "Invalid URL format",
      content := "", title := "", url := url }

/-!
Model of the structured-info reconciler (GeminiService in
src/backend/services/gemini.py).  The generative completion call is
abstracted as an outcome oracle: it either raised an exception or responded
with some text; the prompt contents only feed that call and do not affect
the modelled behaviour.  json.loads is modelled by a fuel-structured parser
of the JSON grammar (objects, arrays, strings with the single-character
escapes, numbers kept as lexemes, true/false/null; \uXXXX escapes are not
modelled and no theorem below exercises them).
-/

/-- A Python value as produced by json.loads. -/
inductive PyVal where
  | obj (entries : List (String × PyVal))
  | arr (elems : List PyVal)
  | str (s : String)
  | num (lexeme : String)
  | boolean (b : Bool)
  | null

/-- JSON whitespace (the characters json.loads skips between tokens). -/
def jsonWs (c : Char) : Bool := c == '\x20' || c == '\t' || c == '\n' || c == '\r'

/-- Skip JSON whitespace. -/
def jsonSkipWs (l : List Char) : List Char := l.dropWhile jsonWs

/-- Parse the body of a JSON string after the opening quote; returns the
decoded characters and the rest after the closing quote. -/
def parseStrBody : Nat → List Char → Option (List Char × List Char)
  | 0, _ => none
  | _ + 1, [] => none
  | fuel + 1, c :: cs =>
    if c = '"' then some ([], cs)
    else if c = '\\' then
      match cs with
      | [] => none
      | e :: cs2 =>
        let dec : Option Char :=
          if e = '"' then some '"'
          else if e = '\\' then some '\\'
          else if e = '/' then some '/'
          else if e = 'b' then some '\x08'
          else if e = 'f' then some '\x0c'
          else if e = 'n' then some '\n'
          else if e = 'r' then some '\r'
          else if e = 't' then some '\t'
          else none
        match dec with
        | some d =>
          match parseStrBody fuel cs2 with
          | some (tail, r2) => some (d :: tail, r2)
          | none => none
        | none => none
    else if decide (c.toNat < 32) then none
    else
      match parseStrBody fuel cs with
      | some (tail, r2) => some (c :: tail, r2)
      | none => none

/-- Lex a JSON number starting at the head of the list; returns its lexeme
and the rest. -/
def lexNumber (l : List Char) : Option (List Char × List Char) :=
  let (neg, l1) := match l with
    | '-' :: t => ((['-'] : List Char), t)
    | _ => (([] : List Char), l)
  let ds := l1.takeWhile Char.isDigit
  let r1 := l1.dropWhile Char.isDigit
  if ds = [] then none
  else if 1 < ds.length && ds.headI = '0' then none
  else
    let fracRes : Option (List Char × List Char) :=
      match r1 with
      | '.' :: t =>
        let fs := t.takeWhile Char.isDigit
        if fs = [] then none else some ('.' :: fs, t.dropWhile Char.isDigit)
      | _ => some ([], r1)
    match fracRes with
    | none => none
    | some (frac, r2) =>
      let expRes : Option (List Char × List Char) :=
        match r2 with
        | e :: t =>
          if e = 'e' || e = 'E' then
            let (sgn, t1) := match t with
              | s :: t2 => if s = '+' || s = '-' then (([s] : List Char), t2) else (([] : List Char), t)
              | [] => (([] : List Char), t)
            let es := t1.takeWhile Char.isDigit
            if es = [] then none else some (e :: (sgn ++ es), t1.dropWhile Char.isDigit)
          else some ([], r2)
        | [] => some ([], r2)
      match expRes with
      | none => none
      | some (ex, r3) => some (neg ++ ds ++ frac ++ ex, r3)

/-- Parse one JSON value (after skipping leading whitespace); the object and
array member loops take the value parser as a continuation so that each
nesting level consumes one unit of fuel. -/
def parseVal : Nat → List Char → Option (PyVal × List Char)
  | 0, _ => none
  | fuel + 1, l =>
    match jsonSkipWs l with
    | [] => none
    | c :: cs =>
      if c = '"' then
        match parseStrBody (cs.length + 1) cs with
        | some (content, rest) => some (.str (String.mk content), rest)
        | none => none
      else if c = '\x7b' then
        match jsonSkipWs cs with
        | '\x7d' :: rest => some (.obj [], rest)
        | l2 => parseMembersLoop (parseVal fuel) (l2.length + 1) l2
      else if c = '[' then
        match jsonSkipWs cs with
        | ']' :: rest => some (.arr [], rest)
        | l2 => parseElemsLoop (parseVal fuel) (l2.length + 1) l2
      else if c = 't' then
        match ciStartsWith false ("rue").data cs with
        | some rest => some (.boolean true, rest)
        | none => none
      else if c = 'f' then
        match ciStartsWith false ("alse").data cs with
        | some rest => some (.boolean false, rest)
        | none => none
      else if c = 'n' then
        match ciStartsWith false ("ull").data cs with
        | some rest => some (.null, rest)
        | none => none
      else
        match lexNumber (c :: cs) with
        | some (lex, rest) => some (.num (String.mk lex), rest)
        | none => none

where
  /-- Object members: `"key" : value` separated by commas, closed by a brace. -/
  parseMembersLoop (pv : List Char → Option (PyVal × List Char)) :
      Nat → List Char → Option (PyVal × List Char)
    | 0, _ => none
    | fuel + 1, l =>
      match jsonSkipWs l with
      | '"' :: ks =>
        match parseStrBody (ks.length + 1) ks with
        | some (key, r1) =>
          match jsonSkipWs r1 with
          | ':' :: r2 =>
            match pv r2 with
            | some (v, r3) =>
              match jsonSkipWs r3 with
              | ',' :: r4 =>
                match parseMembersLoop pv fuel r4 with
                | some (.obj entries, r5) => some (.obj ((String.mk key, v) :: entries), r5)
                | _ => none
              | '\x7d' :: r4 => some (.obj [(String.mk key, v)], r4)
              | _ => none
            | none => none
          | _ => none
        | none => none
      | _ => none
  /-- Array elements: values separated by commas, closed by a bracket. -/
  parseElemsLoop (pv : List Char → Option (PyVal × List Char)) :
      Nat → List Char → Option (PyVal × List Char)
    | 0, _ => none
    | fuel + 1, l =>
      match pv l with
      | some (v, r1) =>
        match jsonSkipWs r1 with
        | ',' :: r2 =>
          match parseElemsLoop pv fuel r2 with
          | some (.arr elems, r3) => some (.arr (v :: elems), r3)
          | _ => none
        | ']' :: r2 => some (.arr [v], r2)
        | _ => none
      | none => none

/-- json.loads: parse one value and require only whitespace after it. -/
def jsonLoads (s : String) : Option PyVal :=
  match parseVal (s.data.length + 1) s.data with
  | some (v, rest) => if jsonSkipWs rest = [] then some v else none
  | none => none

/-- The pattern of re.sub(r"```json\s*", "", text): case-sensitive. -/
def fenceJsonPat : Pat := ⟨false, [Tok.lit [("```json").data], .wsStar]⟩

/-- re.sub(r"```\s*$", "", text): the first "```" whose entire remaining
suffix is whitespace is removed together with that suffix (the dollar
anchors at the end of the text or just before a final newline, both of which
are subsumed by an all-whitespace suffix). -/
def removeTrailingFence : List Char → List Char
  | [] => []
  | c :: cs =>
    match ciStartsWith false ("```").data (c :: cs) with
    | some rest =>
      if rest.all pyIsSpace then [] else c :: removeTrailingFence cs
    | none => c :: removeTrailingFence cs

/-- re.search(r"\{.*\}", text, re.DOTALL): the greedy span from the first
opening brace to the last closing brace after it, if any. -/
def braceSpan (s : List Char) : List Char :=
  match s.dropWhile (fun c => c != '\x7b') with
  | [] => s
  | c :: rest =>
    match ((c :: rest).reverse.dropWhile (fun c2 => c2 != '\x7d')).reverse with
    | [] => s
    | u :: us => u :: us

/-- GeminiService._clean_json_response: strip ```json fences, strip a
trailing ``` fence, then keep the greedy brace-delimited span if present. -/
def clean_json_response (text : String) : String :=
  String.mk (braceSpan (removeTrailingFence (removeAllPat fenceJsonPat text.data)))

/-- A completion-call outcome: the call raised, or returned response text. -/
inductive CompletionOutcome where
  | raised (msg : String)
  | responded (text : String)

/-- Newline characters excluded by the value group `[^\n\r]+`. -/
def isCRLF (c : Char) : Bool := c == '\n' || c == '\r'

/-- The value part `:\s*([^\n\r]+)` after a matched label: a colon, greedy
whitespace, then at least one non-newline character (greedily to the line
end).  When everything after the colon is whitespace, the greedy `\s*`
backtracks minimally, so the group captures exactly the last whitespace
character that is not a newline, if any. -/
def afterLabel : List Char → Option (List Char)
  | ':' :: r2 =>
    let after := r2.dropWhile pyIsSpace
    match after with
    | _ :: _ => some (after.takeWhile (fun c => !isCRLF c))
    | [] =>
      match r2.reverse.dropWhile isCRLF with
      | c :: _ => some [c]
      | [] => none
  | _ => none

/-- Try each label alternative at this position (in order, with
backtracking into the next alternative when the value part fails). -/
def labelValueAt : List (List Char) → List Char → Option (List Char)
  | [], _ => none
  | lab :: more, s =>
    match ciStartsWith true lab s with
    | some r1 =>
      match afterLabel r1 with
      | some v => some v
      | none => labelValueAt more s
    | none => labelValueAt more s

/-- re.search of `(?:label1|label2|label3):\s*([^\n\r]+)` with re.IGNORECASE:
the capture of the leftmost position where the full pattern matches. -/
def labelSearch (labels : List (List Char)) : List Char → Option (List Char)
  | [] => none
  | c :: cs =>
    match labelValueAt labels (c :: cs) with
    | some v => some v
    | none => labelSearch labels cs

/-- The company-label alternatives of _create_default_job_info. -/
def companyLabels : List (List Char) := [("company").data, ("employer").data, ("organization").data]

/-- The title-label alternatives of _create_default_job_info. -/
def titleLabels : List (List Char) := [("title").data, ("position").data, ("job").data]

/-- GeminiService._create_default_job_info: company and position from the
label regexes (stripped), the literal defaults otherwise, and the fixed
values of the other twelve fields exactly as in the source. -/
def create_default_job_info (job_content job_url : String) : PyVal :=
  let company := match labelSearch companyLabels job_content.data with
    | some v => pyStrip (String.mk v)
    | none => "Company"
  let title := match labelSearch titleLabels job_content.data with
    | some v => pyStrip (String.mk v)
    | none => "Position"
  .obj [ ("company_name", .str company),
    ("position_title", .str title),
    ("department", .str ""),
    ("location", .str ""),
    ("job_type", .str ""),
    ("salary_range", .str ""),
    ("key_requirements", .arr [.str "Professional experience",
      .str "Strong communication skills", .str "Team collaboration"]),
    ("preferred_skills", .arr [.str "Industry knowledge", .str "Problem-solving",
      .str "Adaptability"]),
    ("company_description", .str "A growing company focused on innovation and excellence"),
    ("role_description", .str "An exciting opportunity to contribute to our team"),
    ("benefits", .arr [.str "Competitive salary", .str "Professional development",
      .str "Team environment"]),
    ("company_culture", .str "Collaborative and inclusive work environment"),
    ("growth_opportunities", .str "Opportunities for career advancement"),
    ("remote_work", .str "Please inquire about remote work options") ]

/-- GeminiService.analyze_job_posting: on a response, strip it, clean it and
parse it as JSON, returning the parsed value as-is; on a parse failure or a
raised completion call, return the default record. -/
def analyze_job_posting (job_content job_url : String) (outcome : CompletionOutcome) : PyVal :=
  match outcome with
  | .raised _ => create_default_job_info job_content job_url
  | .responded t =>
    match jsonLoads (clean_json_response (pyStrip t)) with
    | some v => v
    | none => create_default_job_info job_content job_url

/-- Dictionary lookup on a parsed JSON value (none when the value is not an
object or lacks the key). -/
def pyLookup (v : PyVal) (key : String) : Option PyVal :=
  match v with
  | .obj entries =>
    match entries.find? (fun kv => kv.1 == key) with
    | some kv => some kv.2
    | none => none
  | _ => none

/-- The fourteen field names of the schema in the analysis prompt. -/
def requiredKeys : List String :=
  [ "company_name", "position_title", "department", "location", "job_type",
    "salary_range", "key_requirements", "preferred_skills", "company_description",
    "role_description", "benefits", "company_culture", "growth_opportunities",
    "remote_work" ]

/-- Key present with a non-null value. -/
def isNonNull : Option PyVal → Bool
  | some .null => false
  | some _ => true
  | none => false

/-- All fourteen schema fields present and non-null. -/
def hasAll14 (v : PyVal) : Bool := requiredKeys.all (fun k => isNonNull (pyLookup v k))

/-- Python str.replace(pat, rep) for a non-empty pattern: non-overlapping
left-to-right replacement, continuing after each replaced span.  Fuel-
structured on the length; a match consuming nothing is kept as-is (the
source's replacement tokens are all non-empty). -/
def replaceAllAux (pat rep : List Char) : Nat → List Char → List Char
  | _, [] => []
  | 0, s => s
  | fuel + 1, c :: cs =>
    match ciStartsWith false pat (c :: cs) with
    | some rest =>
      if rest.length < cs.length + 1 then rep ++ replaceAllAux pat rep fuel rest
      else c :: replaceAllAux pat rep fuel cs
    | none => c :: replaceAllAux pat rep fuel cs

/-- Python str.replace on strings. -/
def pyReplace (s pat rep : String) : String :=
  String.mk (replaceAllAux pat.data rep.data s.data.length s.data)

/-- The jobInfo dictionary as read by _create_fallback_cover_letter: the four
fields it looks up, each possibly absent (Dict.get with a default).  Values
of other types than the expected ones would raise in Python and are outside
the modelled domain. -/
structure JobInfoDict where
  company_name : Option String
  position_title : Option String
  key_requirements : Option (List String)
  company_description : Option String

/-- GeminiService._create_fallback_cover_letter: sequential template
replacements with literal defaults for absent keys, exactly as in the source. -/
def create_fallback_cover_letter (template : String) (ji : JobInfoDict) : String :=
  let p1 := pyReplace template "{company_name}" (ji.company_name.getD "Company")
  let p2 := pyReplace p1 "{position_title}" (ji.position_title.getD "Position")
  let skills := joinSep ", "
    ((ji.key_requirements.getD ["professional experience", "strong communication skills"]).take 3)
  let p3 := pyReplace p2 "{relevant_skills}" skills
  let p4 := pyReplace p3 "{company_reasons}"
    (ji.company_description.getD "your commitment to excellence and innovation")
  let pc := "My experience aligns well with your requirements for " ++ skills ++
    ". I am excited about the opportunity to contribute to your team and help achieve your organizational goals."
  pyReplace p4 "{personalized_content}" pc

/-- GeminiService.personalize_cover_letter: the trimmed response text on
success, the deterministic fallback letter on a raised call.  The prompt
(and the resume data, which only appears in the prompt) feed the abstracted
completion call and do not affect the modelled behaviour. -/
def personalize_cover_letter (template : String) (ji : JobInfoDict)
    (outcome : CompletionOutcome) : String :=
  match outcome with
  | .responded t => pyStrip t
  | .raised _ => create_fallback_cover_letter template ji

/-!
Derived predicates and the concrete scenario data used by the claim
theorems below.
-/

/-- The completion outcomes on which analyze_job_posting takes its
default-record path: the call raised, or the cleaned response text fails to
parse as JSON. -/
def analysisFellBack (o : CompletionOutcome) : Prop :=
  match o with
  | .raised _ => True
  | .responded rt => jsonLoads (clean_json_response (pyStrip rt)) = none

/-- Case-insensitive occurrence test for a phrase: some suffix of the text
starts (under ASCII case folding) with the phrase. -/
def containsPhraseCI (w : List Char) : List Char → Bool
  | [] => (ciStartsWith true w []).isSome
  | c :: cs => (ciStartsWith true w (c :: cs)).isSome || containsPhraseCI w cs

/-- No two adjacent characters are both whitespace. -/
def noDoubleSpace : List Char → Bool
  | [] => true
  | [_] => true
  | a :: b :: t => !(pyIsSpace a && pyIsSpace b) && noDoubleSpace (b :: t)

/-- Every whitespace character is a plain space. -/
def spacesAreBlank (l : List Char) : Bool := l.all (fun c => !pyIsSpace c || c == '\x20')

/-- The shape invariant of whitespace-collapsed text. -/
def ColOK (l : List Char) : Prop := noDoubleSpace l = true ∧ spacesAreBlank l = true

/-- Text of the element with class "description" in the C5 scenario, longer
than 100 characters. -/
def c5DescText : String :=
  "This is the plain description element text, deliberately padded until it is well over one hundred characters long."

/-- Text of the element with class "job-detail" in the C5 scenario, longer
than 100 characters. -/
def c5DetailText : String :=
  "This is the job detail element text, likewise deliberately padded until it is well over one hundred characters long."

/-- The C5 scenario document: a description-classed element first, then a
job-detail-classed element, both with long text. -/
def c5Soup : NodeList :=
  .cons (.elem "div" [("class", "description")] (.cons (.text c5DescText) .nil))
    (.cons (.elem "div" [("class", "job-detail")] (.cons (.text c5DetailText) .nil)) .nil)

/-!
Claim theorems for the scraper's validator and failure semantics.
-/

/-- C7: the validator accepts a URL exactly when it parses into a non-empty
scheme and a non-empty network location, and on every rejected URL the
scraper returns the invalid-format failure record without consulting the
network collaborator (the result is the same for every oracle). -/
theorem c7_valid_url_gate :
    ∀ url : String,
      (is_valid_url url = true ↔
        ∃ r : SplitResult, pyUrlsplit url = .ok r ∧ r.scheme ≠ "" ∧ r.netloc ≠ "") ∧
      (is_valid_url url = false →
        ∀ fetchParse : String → Except PyExc NodeList,
          scrape_job_posting fetchParse url =
            ⟨false, some "Invalid URL format", "", "", url⟩) := by
  intro url
  constructor
  · constructor
    · intro h
      unfold is_valid_url at h
      cases hu : pyUrlsplit url with
      | ok r =>
        rw [hu] at h
        simp only [Bool.and_eq_true, bne_iff_ne, ne_eq] at h
        exact ⟨r, rfl, h.1, h.2⟩
      | error e => rw [hu] at h; exact absurd h (by simp)
    · rintro ⟨r, hr, h1, h2⟩
      unfold is_valid_url
      rw [hr]
      simp only [Bool.and_eq_true, bne_iff_ne, ne_eq]
      exact ⟨h1, h2⟩
  · intro hinv fetchParse
    unfold scrape_job_posting
    rw [hinv]
    simp

/-- Witness for C7 at concrete inputs: a well-formed URL is accepted, and a
schemeless URL is rejected with the exact invalid-format record. -/
theorem c7_valid_url_gate_witness :
    is_valid_url "https://example.com" = true ∧
    scrape_job_posting (fun _ => .ok .nil) "example.com" =
      ⟨false, some "Invalid URL format", "", "", "example.com"⟩ := by
  constructor
  · exact (c7_valid_url_gate "https://example.com").1.mpr
      ⟨⟨"https", "example.com"⟩, rfl, by decide, by decide⟩
  · exact (c7_valid_url_gate "example.com").2 (by rfl) (fun _ => .ok .nil)

/-- C8: the scraper absorbs every collaborator exception: on a valid URL, a
raised RequestException with message m yields the Network-error failure
record, and any other raised exception yields the Scraping-error failure
record (scrape_job_posting is a total function of the oracle and the URL). -/
theorem c8_scrape_exception_taxonomy :
    ∀ (f : String → Except PyExc NodeList) (url m : String),
      is_valid_url url = true →
      (f url = .error (.reqExc m) →
        scrape_job_posting f url = ⟨false, some ("Network error: " ++ m), "", "", url⟩) ∧
      (f url = .error (.otherExc m) →
        scrape_job_posting f url = ⟨false, some ("Scraping error: " ++ m), "", "", url⟩) := by
  intro f url m hvalid
  constructor
  · intro hf
    unfold scrape_job_posting
    rw [hvalid, hf]
    simp
  · intro hf
    unfold scrape_job_posting
    rw [hvalid, hf]
    simp

/-- Witness for C8 at concrete inputs: a transport failure and a generic
failure produce exactly the two tagged failure records. -/
theorem c8_scrape_exception_taxonomy_witness :
    scrape_job_posting (fun _ => .error (.reqExc "boom")) "http://a" =
      ⟨false, some ("Network error: " ++ "boom"), "", "", "http://a"⟩ ∧
    scrape_job_posting (fun _ => .error (.otherExc "bad parse")) "http://a" =
      ⟨false, some ("Scraping error: " ++ "bad parse"), "", "", "http://a"⟩ := by
  constructor
  · exact (c8_scrape_exception_taxonomy (fun _ => .error (.reqExc "boom")) "http://a" "boom"
      (by rfl)).1 rfl
  · exact (c8_scrape_exception_taxonomy (fun _ => .error (.otherExc "bad parse")) "http://a"
      "bad parse" (by rfl)).2 rfl

/-- C9: every record scrape_job_posting returns with success = false has an
empty content field, whatever the oracle outcome. -/
theorem c9_failure_empty_content :
    ∀ (f : String → Except PyExc NodeList) (url : String),
      (scrape_job_posting f url).success = false →
      (scrape_job_posting f url).content = "" := by
  intro f url h
  unfold scrape_job_posting at *
  by_cases hv : is_valid_url url = true
  · rw [hv] at h ⊢
    simp only [if_true] at h ⊢
    cases hf : f url with
    | ok soup => rw [hf] at h; exact Bool.noConfusion h
    | error e => cases e <;> simp
  · rw [Bool.not_eq_true] at hv
    rw [hv] at h ⊢
    simp

/-- Witness for C9 at a concrete failing input. -/
theorem c9_failure_empty_content_witness :
    (scrape_job_posting (fun _ => .error (.reqExc "x")) "http://a").content = "" :=
  c9_failure_empty_content (fun _ => .error (.reqExc "x")) "http://a" rfl

/-- C10: every record scrape_job_posting returns carries the input URL
unchanged (its field set is fixed by the ScrapeResult structure: success,
error, content, title, url), and on every failure path the title is empty. -/
theorem c10_record_shape :
    ∀ (f : String → Except PyExc NodeList) (url : String),
      (scrape_job_posting f url).url = url ∧
      ((scrape_job_posting f url).success = false →
        (scrape_job_posting f url).title = "") := by
  intro f url
  unfold scrape_job_posting
  by_cases hv : is_valid_url url = true
  · rw [hv]
    simp only [if_true]
    cases hf : f url with
    | ok soup => simp
    | error e => cases e <;> simp
  · rw [Bool.not_eq_true] at hv
    rw [hv]
    simp

/-- Witness for C10 at a concrete failing input. -/
theorem c10_record_shape_witness :
    (scrape_job_posting (fun _ => .error (.otherExc "x")) "http://a").url = "http://a" ∧
    (scrape_job_posting (fun _ => .error (.otherExc "x")) "http://a").title = "" :=
  ⟨(c10_record_shape (fun _ => .error (.otherExc "x")) "http://a").1,
   (c10_record_shape (fun _ => .error (.otherExc "x")) "http://a").2 rfl⟩

/-!
Claim theorems for the reconciler (analyze_job_posting).
-/

/-- On every fallback outcome, analyze_job_posting returns exactly the
default record derived from the job text. -/
theorem analyze_fallback_eq (t u : String) (o : CompletionOutcome)
    (ho : analysisFellBack o) :
    analyze_job_posting t u o = create_default_job_info t u := by
  cases o with
  | raised m => rfl
  | responded rt =>
    have ho' : jsonLoads (clean_json_response (pyStrip rt)) = none := ho
    show (match jsonLoads (clean_json_response (pyStrip rt)) with
      | some v => v
      | none => create_default_job_info t u) = create_default_job_info t u
    rw [ho']

/-- The default record always carries all fourteen schema fields with
non-null values, whatever the job text. -/
theorem hasAll14_default (t u : String) : hasAll14 (create_default_job_info t u) = true := by
  unfold create_default_job_info
  cases labelSearch companyLabels t.data <;> cases labelSearch titleLabels t.data <;> rfl

/-- C1 counterexample: on a completion failure the default record sets
department (and location, job_type, salary_range) to the empty string, so
not every one of the twelve non-company/position fields receives a
non-empty placeholder value as the claim states. -/
theorem c1_default_record_counterexample :
    analyze_job_posting "any text" "https://x" (.raised "err") =
      create_default_job_info "any text" "https://x" ∧
    pyLookup (create_default_job_info "any text" "https://x") "department" = some (.str "") ∧
    pyLookup (create_default_job_info "any text" "https://x") "location" = some (.str "") ∧
    pyLookup (create_default_job_info "any text" "https://x") "job_type" = some (.str "") ∧
    pyLookup (create_default_job_info "any text" "https://x") "salary_range" = some (.str "") :=
  ⟨rfl, rfl, rfl, rfl, rfl⟩

/-- C1 amended: on every completion failure or unparseable response,
analyze returns the default record derived from the job text; company_name
and position_title come from the case-insensitive label regex captures
(stripped), defaulting to "Company"/"Position" when no match exists; eight
of the twelve remaining fields receive the fixed non-empty placeholder
values of the source, while department, location, job_type and salary_range
are set to the empty string. -/
theorem c1_default_record_amended :
    ∀ (t u : String) (o : CompletionOutcome), analysisFellBack o →
      analyze_job_posting t u o = create_default_job_info t u ∧
      (labelSearch companyLabels t.data = none →
        pyLookup (create_default_job_info t u) "company_name" = some (.str "Company")) ∧
      (∀ v, labelSearch companyLabels t.data = some v →
        pyLookup (create_default_job_info t u) "company_name" =
          some (.str (pyStrip (String.mk v)))) ∧
      (labelSearch titleLabels t.data = none →
        pyLookup (create_default_job_info t u) "position_title" = some (.str "Position")) ∧
      (∀ v, labelSearch titleLabels t.data = some v →
        pyLookup (create_default_job_info t u) "position_title" =
          some (.str (pyStrip (String.mk v)))) ∧
      pyLookup (create_default_job_info t u) "department" = some (.str "") ∧
      pyLookup (create_default_job_info t u) "location" = some (.str "") ∧
      pyLookup (create_default_job_info t u) "job_type" = some (.str "") ∧
      pyLookup (create_default_job_info t u) "salary_range" = some (.str "") ∧
      pyLookup (create_default_job_info t u) "key_requirements" =
        some (.arr [.str "Professional experience", .str "Strong communication skills",
          .str "Team collaboration"]) ∧
      pyLookup (create_default_job_info t u) "preferred_skills" =
        some (.arr [.str "Industry knowledge", .str "Problem-solving", .str "Adaptability"]) ∧
      pyLookup (create_default_job_info t u) "company_description" =
        some (.str "A growing company focused on innovation and excellence") ∧
      pyLookup (create_default_job_info t u) "role_description" =
        some (.str "An exciting opportunity to contribute to our team") ∧
      pyLookup (create_default_job_info t u) "benefits" =
        some (.arr [.str "Competitive salary", .str "Professional development",
          .str "Team environment"]) ∧
      pyLookup (create_default_job_info t u) "company_culture" =
        some (.str "Collaborative and inclusive work environment") ∧
      pyLookup (create_default_job_info t u) "growth_opportunities" =
        some (.str "Opportunities for career advancement") ∧
      pyLookup (create_default_job_info t u) "remote_work" =
        some (.str "Please inquire about remote work options") := by
  intro t u o ho
  refine ⟨analyze_fallback_eq t u o ho, ?_, ?_, ?_, ?_, ?_, ?_, ?_, ?_, ?_, ?_, ?_, ?_, ?_, ?_, ?_, ?_⟩ <;>
    unfold create_default_job_info
  · intro hc; rw [hc]; rfl
  · intro v hc; rw [hc]; rfl
  · intro ht; rw [ht]
    cases labelSearch companyLabels t.data <;> rfl
  · intro v ht; rw [ht]
    cases labelSearch companyLabels t.data <;> rfl
  all_goals cases labelSearch companyLabels t.data <;> cases labelSearch titleLabels t.data <;> rfl

/-- Witness for C1 at the spec's own scenario: the completion call raises on
"any text", no company label is present, so company_name is the literal
"Company". -/
theorem c1_default_record_amended_witness :
    analyze_job_posting "any text" "https://x" (.raised "err") =
      create_default_job_info "any text" "https://x" ∧
    pyLookup (create_default_job_info "any text" "https://x") "company_name" =
      some (.str "Company") :=
  ⟨(c1_default_record_amended "any text" "https://x" (.raised "err") trivial).1,
   (c1_default_record_amended "any text" "https://x" (.raised "err") trivial).2.1 rfl⟩

/-- C2 counterexample: a successful completion response whose JSON parses to
an object with a single key is returned as-is by analyze_job_posting, so the
returned record does not contain all fourteen schema fields. -/
theorem c2_fourteen_fields_counterexample :
    analyze_job_posting "t" "u" (.responded "\x7b\"company_name\": \"X\"\x7d") =
      .obj [("company_name", .str "X")] ∧
    hasAll14 (analyze_job_posting "t" "u" (.responded "\x7b\"company_name\": \"X\"\x7d")) =
      false :=
  ⟨rfl, rfl⟩

/-- C2 amended: whenever the completion call raises or its response fails to
parse as JSON, the record analyze_job_posting returns contains all fourteen
schema fields, each present and non-null; on a successfully parsed response
the parsed object is returned as-is and may lack fields. -/
theorem c2_fourteen_fields_amended :
    ∀ (t u : String) (o : CompletionOutcome), analysisFellBack o →
      hasAll14 (analyze_job_posting t u o) = true := by
  intro t u o ho
  rw [analyze_fallback_eq t u o ho]
  exact hasAll14_default t u

/-- Witness for C2 at a concrete unparseable response. -/
theorem c2_fourteen_fields_amended_witness :
    hasAll14 (analyze_job_posting "text" "url" (.responded "This is not valid JSON")) = true :=
  c2_fourteen_fields_amended "text" "url" (.responded "This is not valid JSON") rfl

/-!
Claim theorems for the personalizer's fallback path.
-/

/-- Rebuilding a string from its character data is the identity. -/
theorem string_mk_data (s : String) : String.mk s.data = s := rfl

/-- Replacing a pattern that starts with an opening brace leaves any string
without opening braces unchanged. -/
theorem replaceAllAux_no_open_brace (pat rep : List Char) (hp : pat.head? = some '\x7b') :
    ∀ (fuel : Nat) (s : List Char), (∀ c ∈ s, c ≠ '\x7b') → replaceAllAux pat rep fuel s = s := by
  intro fuel
  induction fuel with
  | zero => intro s _; cases s <;> rfl
  | succ n ih =>
    intro s hs
    cases s with
    | nil => rfl
    | cons c cs =>
      obtain ⟨b, bt, rfl⟩ : ∃ b bt, pat = b :: bt := by
        cases pat with
        | nil => simp at hp
        | cons b bt => exact ⟨b, bt, rfl⟩
      have hb : b = '\x7b' := by simpa using hp
      have hc : c ≠ '\x7b' := hs c (by simp)
      have hcs : ciStartsWith false (b :: bt) (c :: cs) = none := by
        unfold ciStartsWith
        have hcb : (c == b) = false := by
          rw [hb]
          exact beq_false_of_ne hc
        simp [hcb]
      show (match ciStartsWith false (b :: bt) (c :: cs) with
        | some rest =>
          if rest.length < cs.length + 1 then rep ++ replaceAllAux (b :: bt) rep n rest
          else c :: replaceAllAux (b :: bt) rep n cs
        | none => c :: replaceAllAux (b :: bt) rep n cs) = c :: cs
      rw [hcs]
      exact congrArg (c :: ·) (ih cs (fun x hx => hs x (by simp [hx])))

/-- String-level form of `replaceAllAux_no_open_brace`. -/
theorem pyReplace_no_open_brace (s pat rep : String) (hp : pat.data.head? = some '\x7b')
    (hs : ∀ c ∈ s.data, c ≠ '\x7b') : pyReplace s pat rep = s := by
  unfold pyReplace
  rw [replaceAllAux_no_open_brace pat.data rep.data hp s.data.length s.data hs]

/-- Every character of a joined list comes from the separator or from one of
the joined strings. -/
theorem joinSep_mem_chars (sep : String) :
    ∀ (l : List String) (c : Char), c ∈ (joinSep sep l).data →
      c ∈ sep.data ∨ ∃ s ∈ l, c ∈ s.data := by
  intro l
  induction l with
  | nil => intro c hc; simp [joinSep] at hc
  | cons x xs ih =>
    intro c hc
    cases xs with
    | nil =>
      right
      exact ⟨x, by simp, by simpa [joinSep] using hc⟩
    | cons y rest =>
      have hdata : (joinSep sep (x :: y :: rest)).data =
          (x.data ++ sep.data) ++ (joinSep sep (y :: rest)).data := by
        show ((x ++ sep) ++ joinSep sep (y :: rest)).data = _
        rw [String.data_append, String.data_append]
      rw [hdata] at hc
      rcases List.mem_append.mp hc with hxs | hjoin
      · rcases List.mem_append.mp hxs with hx | hsep
        · exact Or.inr ⟨x, by simp, hx⟩
        · exact Or.inl hsep
      · rcases ih c hjoin with h | ⟨s, hmem, hcs⟩
        · exact Or.inl h
        · exact Or.inr ⟨s, by simp [hmem], hcs⟩

/-- Replacing the company-name token inside the bare relevant-skills token
template does nothing, whatever the replacement. -/
theorem pyReplace_cn_id (rep : String) :
    pyReplace "{relevant_skills}" "{company_name}" rep = "{relevant_skills}" := rfl

/-- Replacing the position-title token inside the bare relevant-skills token
template does nothing, whatever the replacement. -/
theorem pyReplace_pt_id (rep : String) :
    pyReplace "{relevant_skills}" "{position_title}" rep = "{relevant_skills}" := rfl

/-- Replacing the relevant-skills token in the template consisting of
exactly that token yields the replacement. -/
theorem pyReplace_self_rs (rep : String) :
    pyReplace "{relevant_skills}" "{relevant_skills}" rep = rep := by
  unfold pyReplace
  have h : replaceAllAux ("{relevant_skills}").data rep.data
      (("{relevant_skills}").data.length) ("{relevant_skills}").data =
      rep.data ++ replaceAllAux ("{relevant_skills}").data rep.data
        (("{relevant_skills}").data.length - 1) [] := rfl
  rw [h]
  have h2 : replaceAllAux ("{relevant_skills}").data rep.data
      (("{relevant_skills}").data.length - 1) [] = [] := rfl
  rw [h2, List.append_nil]

/-- C6 counterexample: with key_requirements present but empty, the
relevant-skills token is replaced by the empty string, not by the fixed
default pair the claim requires. -/
theorem c6_relevant_skills_counterexample :
    create_fallback_cover_letter "X {relevant_skills} Y" ⟨none, none, some [], none⟩ = "X  Y" ∧
    "X  Y" ≠ "X professional experience, strong communication skills Y" :=
  ⟨rfl, by decide⟩

/-- C6 amended: in the fallback path the relevant-skills token is replaced
by the comma-joined first three entries of jobInfo's key_requirements when
that key is present (its entries assumed brace-free so that the later token
replacements do not touch the substituted text; an empty sequence therefore
yields the empty replacement), and by the fixed default pair only when the
key is absent. -/
theorem c6_relevant_skills_amended :
    ∀ ji : JobInfoDict,
      (ji.key_requirements = none →
        create_fallback_cover_letter "{relevant_skills}" ji =
          "professional experience, strong communication skills") ∧
      (∀ reqs : List String, ji.key_requirements = some reqs →
        (∀ s ∈ reqs.take 3, ∀ c ∈ s.data, c ≠ '\x7b') →
        create_fallback_cover_letter "{relevant_skills}" ji =
          joinSep ", " (reqs.take 3)) := by
  intro ji
  constructor
  · intro hkr
    unfold create_fallback_cover_letter
    rw [hkr]
    rfl
  · intro reqs hkr hnb
    unfold create_fallback_cover_letter
    rw [hkr]
    show pyReplace (pyReplace (pyReplace (pyReplace
        (pyReplace "{relevant_skills}" "{company_name}" (ji.company_name.getD "Company"))
        "{position_title}" (ji.position_title.getD "Position"))
        "{relevant_skills}" (joinSep ", " (reqs.take 3)))
        "{company_reasons}" (ji.company_description.getD "your commitment to excellence and innovation"))
        "{personalized_content}" _ = joinSep ", " (reqs.take 3)
    rw [pyReplace_cn_id, pyReplace_pt_id, pyReplace_self_rs]
    have hskills : ∀ c ∈ (joinSep ", " (reqs.take 3)).data, c ≠ '\x7b' := by
      intro c hc
      rcases joinSep_mem_chars ", " (reqs.take 3) c hc with h | ⟨s, hmem, hcs⟩
      · rcases (by simpa using h : c = ',' ∨ c = '\x20') with rfl | rfl <;> decide
      · exact hnb s hmem c hcs
    rw [pyReplace_no_open_brace _ "{company_reasons}" _ rfl hskills,
        pyReplace_no_open_brace _ "{personalized_content}" _ rfl hskills]

/-- Witness for C6 at concrete inputs: an absent key yields the default
pair; a four-entry sequence yields its first three entries comma-joined. -/
theorem c6_relevant_skills_amended_witness :
    create_fallback_cover_letter "{relevant_skills}" ⟨none, none, none, none⟩ =
      "professional experience, strong communication skills" ∧
    create_fallback_cover_letter "{relevant_skills}" ⟨none, none, some ["A", "B", "C", "D"], none⟩ =
      joinSep ", " (["A", "B", "C", "D"].take 3) :=
  ⟨(c6_relevant_skills_amended ⟨none, none, none, none⟩).1 rfl,
   (c6_relevant_skills_amended ⟨none, none, some ["A", "B", "C", "D"], none⟩).2
     ["A", "B", "C", "D"] rfl (by decide)⟩

/-!
Claim theorems for the generic selector cascade.
-/

/-- If every selector of a list yields no elements or text of at most 100
characters, the selector loop yields nothing. -/
theorem trySelectors_eq_none (soup : NodeList) :
    ∀ sels : List Sel,
      (∀ sel ∈ sels, selectList sel soup = [] ∨
        ¬(100 < (joinTexts (selectList sel soup)).length)) →
      trySelectors soup sels = none := by
  intro sels
  induction sels with
  | nil => intro _; rfl
  | cons sel rest ih =>
    intro h
    unfold trySelectors
    cases hsl : selectList sel soup with
    | nil => exact ih (fun s hs => h s (by simp [hs]))
    | cons e es =>
      rcases h sel (by simp) with he | hlen
      · rw [hsl] at he; cases he
      · rw [hsl] at hlen
        simp only [if_neg hlen]
        exact ih (fun s hs => h s (by simp [hs]))

/-- C5 counterexample: on a document holding a long [class*="description"]
element before a long [class*="job-detail"] element and a URL with no
domain-specific selectors, the extractor returns the job-detail text — the
code tries [class*="job-detail"] before [class*="description"] — whereas
the order stated by the claim (description before job-detail) would return
the description text. -/
theorem c5_generic_order_counterexample :
    extract_job_content c5Soup "https://example.org/jobs" = c5DetailText ∧
    c5DetailText ≠ c5DescText := by
  constructor
  · rfl
  · decide

/-- C5 amended: when no domain-specific selector yields elements with
extracted text longer than 100 characters, the extractor tries the generic
selectors in the source order — [class*="job-description"],
[class*="job-detail"], [class*="description"], [id*="job-description"],
[id*="description"], main, .content, #content, article — and the first
selector with matched elements whose single-space-joined document-order text
exceeds 100 characters determines the content, the body text (else whole
document text) being the fallback. -/
theorem c5_generic_cascade_amended :
    ∀ (soup : NodeList) (url : String),
      (∀ sel ∈ get_site_selectors (lowerStr (netlocOfUrl url)),
        selectList sel soup = [] ∨
          ¬(100 < (joinTexts (selectList sel soup)).length)) →
      extract_job_content soup url =
        (match trySelectors soup
            [ .classSub "job-description", .classSub "job-detail", .classSub "description",
              .idSub "job-description", .idSub "description",
              .tagSel "main", .classWord "content", .idEq "content", .tagSel "article" ] with
         | some c => c
         | none =>
           match findTagList "body" soup with
           | some body => getTextStrip body
           | none => getTextStripAll soup) := by
  intro soup url h
  show (match trySelectors soup (get_site_selectors (lowerStr (netlocOfUrl url))) with
    | some c => c
    | none =>
      match trySelectors soup common_selectors with
      | some c => c
      | none =>
        match findTagList "body" soup with
        | some body => getTextStrip body
        | none => getTextStripAll soup) = _
  rw [trySelectors_eq_none soup _ h]
  rfl

/-- Witness for C5 at a concrete document and URL with no domain-specific
selectors: the extractor agrees with the generic cascade. -/
theorem c5_generic_cascade_amended_witness :
    extract_job_content c5Soup "https://unknown-site.com/job" =
      (match trySelectors c5Soup
          [ .classSub "job-description", .classSub "job-detail", .classSub "description",
            .idSub "job-description", .idSub "description",
            .tagSel "main", .classWord "content", .idEq "content", .tagSel "article" ] with
       | some c => c
       | none =>
         match findTagList "body" c5Soup with
         | some body => getTextStrip body
         | none => getTextStripAll c5Soup) := by
  apply c5_generic_cascade_amended
  intro sel hsel
  rw [show get_site_selectors (lowerStr (netlocOfUrl "https://unknown-site.com/job")) = []
    from rfl] at hsel
  exact absurd hsel (List.not_mem_nil sel)

/-!
Lemmas about whitespace collapsing and stripping, used for the cleaning
claims.
-/

/-- The tail of a no-double-space list is again without double spaces. -/
theorem noDoubleSpace_tail {c : Char} {t : List Char}
    (h : noDoubleSpace (c :: t) = true) : noDoubleSpace t = true := by
  cases t with
  | nil => rfl
  | cons d t' => exact (Bool.and_eq_true_iff.mp h).2

/-- Step equation: a whitespace head inside a run is dropped. -/
theorem collapseAux_cons_space_true {x : Char} (xs : List Char) (hx : pyIsSpace x = true) :
    collapseAux true (x :: xs) = collapseAux true xs := by
  simp [collapseAux, hx]

/-- Step equation: a whitespace head outside a run becomes a single space. -/
theorem collapseAux_cons_space_false {x : Char} (xs : List Char) (hx : pyIsSpace x = true) :
    collapseAux false (x :: xs) = '\x20' :: collapseAux true xs := by
  simp [collapseAux, hx]

/-- Step equation: a non-whitespace head is kept and ends any run. -/
theorem collapseAux_cons_nonspace {x : Char} (xs : List Char) (b : Bool)
    (hx : pyIsSpace x = false) :
    collapseAux b (x :: xs) = x :: collapseAux false xs := by
  simp [collapseAux, hx]

/-- Inside a whitespace run with the replacement space already emitted, the
collapser's output starts with a non-space character (if any). -/
theorem collapseAux_true_head :
    ∀ (l : List Char) (c : Char) (t : List Char),
      collapseAux true l = c :: t → pyIsSpace c = false := by
  intro l
  induction l with
  | nil => intro c t h; cases h
  | cons x xs ih =>
    intro c t h
    by_cases hx : pyIsSpace x = true
    · rw [collapseAux_cons_space_true xs hx] at h
      exact ih c t h
    · rw [Bool.not_eq_true] at hx
      rw [collapseAux_cons_nonspace xs true hx] at h
      cases h
      exact hx

/-- The collapser's output satisfies the collapsed-shape invariant. -/
theorem colOK_collapseAux : ∀ (l : List Char) (b : Bool), ColOK (collapseAux b l) := by
  intro l
  induction l with
  | nil => intro b; exact ⟨rfl, rfl⟩
  | cons x xs ih =>
    intro b
    by_cases hx : pyIsSpace x = true
    · cases b with
      | true =>
        rw [collapseAux_cons_space_true xs hx]
        exact ih true
      | false =>
        rw [collapseAux_cons_space_false xs hx]
        obtain ⟨ihn, ihb⟩ := ih true
        constructor
        · cases hR : collapseAux true xs with
          | nil => rfl
          | cons d t =>
            have hd : pyIsSpace d = false := collapseAux_true_head xs d t hR
            have hnd : noDoubleSpace (d :: t) = true := hR ▸ ihn
            show (!(pyIsSpace '\x20' && pyIsSpace d) && noDoubleSpace (d :: t)) = true
            simp [hd, hnd]
        · show ((!pyIsSpace '\x20' || '\x20' == '\x20') && spacesAreBlank (collapseAux true xs)) = true
          rw [ihb]
          rfl
    · rw [Bool.not_eq_true] at hx
      rw [collapseAux_cons_nonspace xs b hx]
      obtain ⟨ihn, ihb⟩ := ih false
      constructor
      · cases hR : collapseAux false xs with
        | nil => rfl
        | cons d t =>
          have hnd : noDoubleSpace (d :: t) = true := hR ▸ ihn
          show (!(pyIsSpace x && pyIsSpace d) && noDoubleSpace (d :: t)) = true
          simp [hx, hnd]
      · show ((!pyIsSpace x || x == '\x20') && spacesAreBlank (collapseAux false xs)) = true
        rw [hx, ihb]
        rfl

/-- Collapsing is the identity on collapsed-shape text (with no head
condition needed when not inside a run). -/
theorem collapseAux_fixed :
    ∀ (l : List Char) (b : Bool), ColOK l →
      (b = true → ∀ c t, l = c :: t → pyIsSpace c = false) →
      collapseAux b l = l := by
  intro l
  induction l with
  | nil => intro b _ _; rfl
  | cons x xs ih =>
    intro b ⟨hn, hb⟩ hhead
    by_cases hx : pyIsSpace x = true
    · cases b with
      | true => exact absurd hx (by rw [hhead rfl x xs rfl]; simp)
      | false =>
        have hx' : x = '\x20' := by
          have h2 := (Bool.and_eq_true_iff.mp hb).1
          simp only [hx] at h2
          simpa using h2
        rw [collapseAux_cons_space_false xs hx]
        rw [← hx']
        have htail : collapseAux true xs = xs := by
          apply ih true ⟨noDoubleSpace_tail hn, (Bool.and_eq_true_iff.mp hb).2⟩
          intro _ c t hxs
          rw [hxs] at hn
          have := (Bool.and_eq_true_iff.mp hn).1
          rw [hx] at this
          simpa using this
        rw [htail]
    · rw [Bool.not_eq_true] at hx
      rw [collapseAux_cons_nonspace xs b hx]
      have htail : collapseAux false xs = xs := by
        apply ih false ⟨noDoubleSpace_tail hn, (Bool.and_eq_true_iff.mp hb).2⟩
        intro hfalse
        cases hfalse
      rw [htail]

/-- A no-double-space property passes to the left part of an append. -/
theorem noDoubleSpace_append_left :
    ∀ (a b : List Char), noDoubleSpace (a ++ b) = true → noDoubleSpace a = true := by
  intro a
  induction a with
  | nil => intro b _; rfl
  | cons x a' ih =>
    intro b h
    cases a' with
    | nil => rfl
    | cons y a'' =>
      have h1 : (!(pyIsSpace x && pyIsSpace y) && noDoubleSpace (y :: (a'' ++ b))) = true := h
      obtain ⟨hxy, hrest⟩ := Bool.and_eq_true_iff.mp h1
      have h2 : noDoubleSpace (y :: a'') = true := ih b hrest
      show (!(pyIsSpace x && pyIsSpace y) && noDoubleSpace (y :: a'')) = true
      rw [hxy, h2]
      rfl

/-- A no-double-space property passes to the right part of an append. -/
theorem noDoubleSpace_append_right :
    ∀ (a b : List Char), noDoubleSpace (a ++ b) = true → noDoubleSpace b = true := by
  intro a
  induction a with
  | nil => intro b h; exact h
  | cons x a' ih => intro b h; exact ih b (noDoubleSpace_tail h)

/-- The collapsed-shape invariant passes to suffixes obtained by dropWhile. -/
theorem colOK_dropWhile (p : Char → Bool) (l : List Char) (h : ColOK l) :
    ColOK (l.dropWhile p) := by
  obtain ⟨hn, hb⟩ := h
  have hsplit : l.takeWhile p ++ l.dropWhile p = l := List.takeWhile_append_dropWhile p l
  constructor
  · exact noDoubleSpace_append_right (l.takeWhile p) (l.dropWhile p) (by rw [hsplit]; exact hn)
  · have : spacesAreBlank (l.takeWhile p ++ l.dropWhile p) = true := by rw [hsplit]; exact hb
    rw [spacesAreBlank, List.all_append] at this
    exact (Bool.and_eq_true_iff.mp this).2

/-- The collapsed-shape invariant passes to the trailing-strip prefix. -/
theorem colOK_dropTrailWs (l : List Char) (h : ColOK l) : ColOK (dropTrailWs l) := by
  obtain ⟨hn, hb⟩ := h
  have hsplit : dropTrailWs l ++ (l.reverse.takeWhile pyIsSpace).reverse = l := by
    unfold dropTrailWs
    rw [← List.reverse_append, List.takeWhile_append_dropWhile]
    exact List.reverse_reverse l
  constructor
  · exact noDoubleSpace_append_left _ _ (by rw [hsplit]; exact hn)
  · have : spacesAreBlank (dropTrailWs l ++ (l.reverse.takeWhile pyIsSpace).reverse) = true := by
      rw [hsplit]; exact hb
    rw [spacesAreBlank, List.all_append] at this
    exact (Bool.and_eq_true_iff.mp this).1

/-- The collapsed-shape invariant passes to the stripped text. -/
theorem colOK_stripWs (l : List Char) (h : ColOK l) : ColOK (stripWs l) :=
  colOK_dropTrailWs _ (colOK_dropWhile pyIsSpace l h)

/-- The head of a dropWhile result fails the predicate. -/
theorem dropWhile_head (p : Char → Bool) :
    ∀ (l : List Char) (c : Char) (t : List Char), l.dropWhile p = c :: t → p c = false := by
  intro l
  induction l with
  | nil => intro c t h; cases h
  | cons x xs ih =>
    intro c t h
    by_cases hx : p x = true
    · rw [List.dropWhile_cons_of_pos hx] at h
      exact ih c t h
    · rw [Bool.not_eq_true] at hx
      rw [List.dropWhile_cons_of_neg (by simp [hx])] at h
      cases h
      exact hx

/-- dropWhile is idempotent. -/
theorem dropWhile_idem (p : Char → Bool) (l : List Char) :
    (l.dropWhile p).dropWhile p = l.dropWhile p := by
  cases hd : l.dropWhile p with
  | nil => rfl
  | cons c t => exact List.dropWhile_cons_of_neg (by simp [dropWhile_head p l c t hd])

/-- Stripping is idempotent. -/
theorem stripWs_idem (l : List Char) : stripWs (stripWs l) = stripWs l := by
  unfold stripWs dropTrailWs
  set A := l.dropWhile pyIsSpace with hA
  set B := A.reverse.dropWhile pyIsSpace with hB
  have h1 : B.reverse.dropWhile pyIsSpace = B.reverse := by
    cases hBr : B.reverse with
    | nil => rfl
    | cons c t =>
      have hprefix : A = c :: (t ++ (A.reverse.takeWhile pyIsSpace).reverse) := by
        have h0 : (A.reverse.takeWhile pyIsSpace ++ B).reverse = A := by
          rw [hB, List.takeWhile_append_dropWhile, List.reverse_reverse]
        rw [List.reverse_append, hBr] at h0
        exact h0.symm
      have hc : pyIsSpace c = false := by
        have hAd : l.dropWhile pyIsSpace = c :: (t ++ (A.reverse.takeWhile pyIsSpace).reverse) := by
          rw [← hA]; exact hprefix
        exact dropWhile_head pyIsSpace l c _ hAd
      exact List.dropWhile_cons_of_neg (by simp [hc])
  rw [h1, List.reverse_reverse, dropWhile_idem]

/-!
Claim theorems for the cleaning function (idempotence and boilerplate
phrases).
-/

/-- Projection of a built string (applied syntactically; stated generally so
that no large cleaning term is ever normalised by unification). -/
theorem data_mk_general (l : List Char) : (String.mk l).data = l := rfl

/-- The character data of the cleaned text, by definition. -/
theorem clean_content_data (s : String) :
    (clean_content s).data = stripWs (collapseWs (removePatternsL (collapseWs s.data))) := by
  unfold clean_content
  exact data_mk_general _

/-- The one-step unfolding of clean_content. -/
theorem clean_content_eq (s : String) :
    clean_content s = String.mk (stripWs (collapseWs (removePatternsL (collapseWs s.data)))) := by
  unfold clean_content
  rfl

/-- The character data of a boilerplate-removal pass, by definition. -/
theorem removePatterns_data (x : String) :
    (removePatterns x).data = removePatternsL x.data := by
  unfold removePatterns
  exact data_mk_general _

/-- Stripping a collapsed text leaves it collapsed. -/
theorem collapse_strip_collapse (m : List Char) :
    collapseWs (stripWs (collapseWs m)) = stripWs (collapseWs m) := by
  apply collapseAux_fixed
  · exact colOK_stripWs _ (colOK_collapseAux m false)
  · intro hfalse; cases hfalse

/-- The cleaned text is already whitespace-collapsed. -/
theorem collapse_clean_fixed (s : String) :
    collapseWs (clean_content s).data = (clean_content s).data := by
  rw [clean_content_data]
  exact collapse_strip_collapse (removePatternsL (collapseWs s.data))

/-- The cleaned text is already stripped. -/
theorem strip_clean_fixed (s : String) :
    stripWs (clean_content s).data = (clean_content s).data := by
  rw [clean_content_data]
  exact stripWs_idem (collapseWs (removePatternsL (collapseWs s.data)))

/-- C3 counterexample: cleaning is not idempotent; deleting a match can
splice the surrounding text into a new boilerplate phrase, which a second
clean removes.  clean "SigSign inn in" = "Sign in" but a second clean
yields "". -/
theorem c3_clean_idem_counterexample :
    clean_content (clean_content "SigSign inn in") ≠ clean_content "SigSign inn in" := by
  have h1 : clean_content "SigSign inn in" = "Sign in" := by decide
  rw [h1, show clean_content "Sign in" = "" by decide]
  decide

/-- C3 amended: cleaning is idempotent on every input whose cleaned output
is unchanged by a further boilerplate-removal pass (in particular whenever
the deletions did not splice new phrase occurrences together). -/
theorem c3_clean_idem_amended :
    ∀ s : String, removePatterns (clean_content s) = clean_content s →
      clean_content (clean_content s) = clean_content s := by
  intro s h
  have hrp0 := congrArg String.data h
  rw [removePatterns_data] at hrp0
  rw [clean_content_eq (clean_content s), collapse_clean_fixed s, hrp0,
    collapse_clean_fixed s, strip_clean_fixed s]

/-- Witness for C3 at a concrete input whose clean output contains no
boilerplate phrase. -/
theorem c3_clean_idem_amended_witness :
    clean_content (clean_content "Hello  world") = clean_content "Hello  world" :=
  c3_clean_idem_amended "Hello  world" (by decide)

/-!
Lemmas about the pattern matcher, used for the boilerplate-phrase claim.
-/

/-- Step equation for ciStartsWith on two cons cells. -/
theorem ciStartsWith_cons (ci : Bool) (b : Char) (bt : List Char) (c : Char) (cs : List Char) :
    ciStartsWith ci (b :: bt) (c :: cs) =
      if (if ci then c.toLower == b.toLower else c == b) then ciStartsWith ci bt cs
      else none := rfl

/-- Matching an appended word is matching the first word and then the second. -/
theorem ciStartsWith_append (ci : Bool) :
    ∀ (w1 w2 s : List Char),
      ciStartsWith ci (w1 ++ w2) s =
        match ciStartsWith ci w1 s with
        | some s1 => ciStartsWith ci w2 s1
        | none => none := by
  intro w1
  induction w1 with
  | nil => intro w2 s; rfl
  | cons b bt ih =>
    intro w2 s
    cases s with
    | nil => rfl
    | cons c cs =>
      rw [show (b :: bt) ++ w2 = b :: (bt ++ w2) from rfl, ciStartsWith_cons, ciStartsWith_cons]
      by_cases hd : (if ci then c.toLower == b.toLower else c == b) = true
      · rw [if_pos hd, if_pos hd]
        exact ih w2 cs
      · rw [if_neg hd, if_neg hd]

/-- A successful word match shortens the text by the word's length. -/
theorem ciStartsWith_length (ci : Bool) :
    ∀ (w s r : List Char), ciStartsWith ci w s = some r → r.length + w.length = s.length := by
  intro w
  induction w with
  | nil => intro s r h; cases h; simp
  | cons b bt ih =>
    intro s r h
    cases s with
    | nil => cases h
    | cons c cs =>
      rw [ciStartsWith_cons] at h
      by_cases hd : (if ci then c.toLower == b.toLower else c == b) = true
      · rw [if_pos hd] at h
        have := ih cs r h
        simp [List.length_cons]
        omega
      · rw [if_neg hd] at h; cases h

/-- tryAlts step equation. -/
theorem tryAlts_cons (ci : Bool) (cont : List Char → Option (List Char))
    (a : List Char) (more : List (List Char)) (s : List Char) :
    tryAlts ci cont (a :: more) s =
      match ciStartsWith ci a s with
      | some s1 =>
        (match cont s1 with
         | some r => some r
         | none => tryAlts ci cont more s)
      | none => tryAlts ci cont more s := rfl

/-- tryWsPlus step equation. -/
theorem tryWsPlus_succ (cont : List Char → Option (List Char)) (s : List Char) (n : Nat) :
    tryWsPlus cont s (n + 1) =
      match cont (s.drop (n + 1)) with
      | some r => some r
      | none => tryWsPlus cont s n := rfl

/-- tryWsStar step equation. -/
theorem tryWsStar_succ (cont : List Char → Option (List Char)) (s : List Char) (n : Nat) :
    tryWsStar cont s (n + 1) =
      match cont (s.drop (n + 1)) with
      | some r => some r
      | none => tryWsStar cont s n := rfl

/-- A successful tryAlts result is no longer than its input. -/
theorem tryAlts_mono (ci : Bool) (cont : List Char → Option (List Char))
    (hc : ∀ x r, cont x = some r → r.length ≤ x.length) :
    ∀ (alts : List (List Char)) (s r : List Char),
      tryAlts ci cont alts s = some r → r.length ≤ s.length := by
  intro alts
  induction alts with
  | nil => intro s r h; cases h
  | cons a more ih =>
    intro s r h
    rw [tryAlts_cons] at h
    cases hca : ciStartsWith ci a s with
    | none => rw [hca] at h; exact ih s r h
    | some s1 =>
      rw [hca] at h
      have h2 : (match cont s1 with
        | some r0 => some r0
        | none => tryAlts ci cont more s) = some r := h
      cases hcont : cont s1 with
      | some r0 =>
        rw [hcont] at h2
        have h3 : some r0 = some r := h2
        have h3e : r0 = r := by injection h3
        have h4 := hc s1 r0 hcont
        have h5 := ciStartsWith_length ci a s s1 hca
        have h6 : r0.length = r.length := by rw [h3e]
        omega
      | none =>
        rw [hcont] at h2
        have h3 : tryAlts ci cont more s = some r := h2
        exact ih s r h3

/-- A successful tryWsPlus result is no longer than its input. -/
theorem tryWsPlus_mono (cont : List Char → Option (List Char))
    (hc : ∀ x r, cont x = some r → r.length ≤ x.length) :
    ∀ (k : Nat) (s r : List Char), tryWsPlus cont s k = some r → r.length ≤ s.length := by
  intro k
  induction k with
  | zero => intro s r h; cases h
  | succ n ih =>
    intro s r h
    rw [tryWsPlus_succ] at h
    cases hcont : cont (s.drop (n + 1)) with
    | some r0 =>
      rw [hcont] at h
      have h3 : some r0 = some r := h
      cases h3
      have h1 := hc _ _ hcont
      have h2 : (s.drop (n + 1)).length ≤ s.length := by
        rw [List.length_drop]
        omega
      omega
    | none =>
      rw [hcont] at h
      have h3 : tryWsPlus cont s n = some r := h
      exact ih s r h3

/-- A successful tryWsStar result is no longer than its input. -/
theorem tryWsStar_mono (cont : List Char → Option (List Char))
    (hc : ∀ x r, cont x = some r → r.length ≤ x.length) :
    ∀ (k : Nat) (s r : List Char), tryWsStar cont s k = some r → r.length ≤ s.length := by
  intro k
  induction k with
  | zero => intro s r h; exact hc s r h
  | succ n ih =>
    intro s r h
    rw [tryWsStar_succ] at h
    cases hcont : cont (s.drop (n + 1)) with
    | some r0 =>
      rw [hcont] at h
      have h3 : some r0 = some r := h
      cases h3
      have h1 := hc _ _ hcont
      have h2 : (s.drop (n + 1)).length ≤ s.length := by
        rw [List.length_drop]
        omega
      omega
    | none =>
      rw [hcont] at h
      have h3 : tryWsStar cont s n = some r := h
      exact ih s r h3

/-- A successful token-sequence match leaves a suffix no longer than the
input. -/
theorem matchToksF_mono (ci : Bool) :
    ∀ (fuel : Nat) (toks : List Tok) (s r : List Char),
      matchToksF ci fuel toks s = some r → r.length ≤ s.length := by
  intro fuel
  induction fuel with
  | zero =>
    intro toks s r h
    cases toks with
    | nil => cases h; exact Nat.le_refl _
    | cons t ts => cases h
  | succ n ih =>
    intro toks s r h
    cases toks with
    | nil => cases h; exact Nat.le_refl _
    | cons t rest =>
      cases t with
      | lit alts => exact tryAlts_mono ci _ (fun x r' hx => ih rest x r' hx) alts s r h
      | wsPlus => exact tryWsPlus_mono _ (fun x r' hx => ih rest x r' hx) _ s r h
      | wsStar => exact tryWsStar_mono _ (fun x r' hx => ih rest x r' hx) _ s r h
      | opt ts =>
        have h' : (match matchToksF ci n (ts ++ rest) s with
          | some r0 => some r0
          | none => matchToksF ci n rest s) = some r := h
        cases hm : matchToksF ci n (ts ++ rest) s with
        | some r0 =>
          rw [hm] at h'
          have h3e : r0 = r := by injection h'
          rw [← h3e]
          exact ih (ts ++ rest) s r0 hm
        | none =>
          rw [hm] at h'
          have h3 : matchToksF ci n rest s = some r := h'
          exact ih rest s r h3

/-- hasMatch step equation. -/
theorem hasMatch_cons (p : Pat) (c : Char) (cs : List Char) :
    hasMatch p (c :: cs) =
      ((match matchPat p (c :: cs) with
        | some rem => decide (rem.length < cs.length + 1)
        | none => false) || hasMatch p cs) := rfl

/-- removeAllAux step equation. -/
theorem removeAllAux_succ_cons (p : Pat) (n : Nat) (c : Char) (cs : List Char) :
    removeAllAux p (n + 1) (c :: cs) =
      match matchPat p (c :: cs) with
      | some rem =>
        if rem.length < cs.length + 1 then removeAllAux p n rem
        else c :: removeAllAux p n cs
      | none => c :: removeAllAux p n cs := rfl

/-- The removal pass never lengthens the text. -/
theorem removeAllAux_len_le (p : Pat) :
    ∀ (fuel : Nat) (s : List Char), (removeAllAux p fuel s).length ≤ s.length := by
  intro fuel
  induction fuel with
  | zero => intro s; cases s <;> exact Nat.le_refl _
  | succ n ih =>
    intro s
    cases s with
    | nil => exact Nat.le_refl _
    | cons c cs =>
      rw [removeAllAux_succ_cons]
      cases hm : matchPat p (c :: cs) with
      | some rem =>
        show (if rem.length < cs.length + 1 then removeAllAux p n rem
          else c :: removeAllAux p n cs).length ≤ (c :: cs).length
        by_cases hlt : rem.length < cs.length + 1
        · rw [if_pos hlt]
          have := ih rem
          simp only [List.length_cons]
          omega
        · rw [if_neg hlt]
          have := ih cs
          simp only [List.length_cons]
          omega
      | none =>
        show (c :: removeAllAux p n cs).length ≤ (c :: cs).length
        have := ih cs
        simp only [List.length_cons]
        omega

/-- A removal pass that preserves the length is the identity. -/
theorem removeAllAux_eq_of_len (p : Pat) :
    ∀ (fuel : Nat) (s : List Char),
      (removeAllAux p fuel s).length = s.length → removeAllAux p fuel s = s := by
  intro fuel
  induction fuel with
  | zero => intro s _; cases s <;> rfl
  | succ n ih =>
    intro s hlen
    cases s with
    | nil => rfl
    | cons c cs =>
      rw [removeAllAux_succ_cons] at hlen ⊢
      cases hm : matchPat p (c :: cs) with
      | some rem =>
        rw [hm] at hlen
        have hlen2 : (if rem.length < cs.length + 1 then removeAllAux p n rem
          else c :: removeAllAux p n cs).length = (c :: cs).length := hlen
        show (if rem.length < cs.length + 1 then removeAllAux p n rem
          else c :: removeAllAux p n cs) = c :: cs
        by_cases hlt : rem.length < cs.length + 1
        · rw [if_pos hlt] at hlen2
          exfalso
          have := removeAllAux_len_le p n rem
          simp only [List.length_cons] at hlen2
          omega
        · rw [if_neg hlt] at hlen2
          rw [if_neg hlt]
          have hcs : (removeAllAux p n cs).length = cs.length := by
            simp only [List.length_cons] at hlen2
            omega
          rw [ih cs hcs]
      | none =>
        rw [hm] at hlen
        have hlen2 : (c :: removeAllAux p n cs).length = (c :: cs).length := hlen
        show c :: removeAllAux p n cs = c :: cs
        have hcs : (removeAllAux p n cs).length = cs.length := by
          simp only [List.length_cons] at hlen2
          omega
        rw [ih cs hcs]

/-- A removal pass with an actual match strictly shortens the text. -/
theorem removeAllAux_lt_of_hasMatch (p : Pat) :
    ∀ (fuel : Nat) (s : List Char), s.length ≤ fuel → hasMatch p s = true →
      (removeAllAux p fuel s).length < s.length := by
  intro fuel
  induction fuel with
  | zero =>
    intro s hle hmatch
    have : s = [] := List.length_eq_zero.mp (Nat.le_zero.mp hle)
    rw [this] at hmatch
    cases hmatch
  | succ n ih =>
    intro s hle hmatch
    cases s with
    | nil => cases hmatch
    | cons c cs =>
      rw [hasMatch_cons] at hmatch
      rw [removeAllAux_succ_cons]
      cases hm : matchPat p (c :: cs) with
      | some rem =>
        rw [hm] at hmatch
        have hmatch2 : (decide (rem.length < cs.length + 1) || hasMatch p cs) = true := hmatch
        show (if rem.length < cs.length + 1 then removeAllAux p n rem
          else c :: removeAllAux p n cs).length < (c :: cs).length
        by_cases hlt : rem.length < cs.length + 1
        · rw [if_pos hlt]
          have := removeAllAux_len_le p n rem
          simp only [List.length_cons]
          omega
        · rw [if_neg hlt]
          have htail : hasMatch p cs = true := by
            rcases Bool.or_eq_true_iff.mp hmatch2 with h1 | h2
            · exact absurd (of_decide_eq_true h1) hlt
            · exact h2
          have hlecs : cs.length ≤ n := by
            simp only [List.length_cons] at hle
            omega
          have := ih cs hlecs htail
          simp only [List.length_cons]
          omega
      | none =>
        rw [hm] at hmatch
        have hmatch2 : (false || hasMatch p cs) = true := hmatch
        show (c :: removeAllAux p n cs).length < (c :: cs).length
        have htail : hasMatch p cs = true := by simpa using hmatch2
        have hlecs : cs.length ≤ n := by
          simp only [List.length_cons] at hle
          omega
        have := ih cs hlecs htail
        simp only [List.length_cons]
        omega

/-- A fold of removal passes never lengthens the text. -/
theorem foldl_removeAll_len_le :
    ∀ (ps : List Pat) (x : List Char),
      (ps.foldl (fun acc p => removeAllPat p acc) x).length ≤ x.length := by
  intro ps
  induction ps with
  | nil => intro x; exact Nat.le_refl _
  | cons p ps' ih =>
    intro x
    calc (List.foldl (fun acc q => removeAllPat q acc) (removeAllPat p x) ps').length
        ≤ (removeAllPat p x).length := ih _
      _ ≤ x.length := removeAllAux_len_le p x.length x

/-- If the fold of removal passes fixes a text, no pattern of the list has a
match in it. -/
theorem removePatternsL_fix_no_match :
    ∀ (ps : List Pat) (x : List Char),
      ps.foldl (fun acc p => removeAllPat p acc) x = x →
      ∀ p ∈ ps, hasMatch p x = false := by
  intro ps
  induction ps with
  | nil => intro x _ p hp; cases hp
  | cons q ps' ih =>
    intro x hfold p hp
    have hstep : List.foldl (fun acc r => removeAllPat r acc) (removeAllPat q x) ps' = x := hfold
    have hle1 : (removeAllPat q x).length ≤ x.length := removeAllAux_len_le q x.length x
    have hle2 : x.length ≤ (removeAllPat q x).length := by
      conv_lhs => rw [← hstep]
      exact foldl_removeAll_len_le ps' (removeAllPat q x)
    have hqx : removeAllPat q x = x :=
      removeAllAux_eq_of_len q x.length x (Nat.le_antisymm hle1 hle2)
    rcases List.mem_cons.mp hp with rfl | hmem
    · by_contra habs
      rw [Bool.not_eq_false] at habs
      have hlt := removeAllAux_lt_of_hasMatch p x.length x (Nat.le_refl _) habs
      have : (removeAllPat p x).length = x.length := by rw [hqx]
      exact absurd this (Nat.ne_of_lt hlt)
    · refine ih x ?_ p hmem
      rw [hqx] at hstep
      exact hstep

/-- ASCII lowering maps only the space character to the space character. -/
theorem toLower_eq_space (c : Char) (h : c.toLower = '\x20') : c = '\x20' := by
  unfold Char.toLower at h
  simp only at h
  split at h
  · next hle =>
    exfalso
    have hv : Nat.isValidChar (c.toNat + 32) := by
      left
      omega
    rw [Char.ofNat, dif_pos hv] at h
    have h2 := congrArg Char.toNat h
    rw [show (Char.ofNatAux (c.toNat + 32) hv).toNat = c.toNat + 32 from rfl] at h2
    have h3 : ('\x20' : Char).toNat = 32 := rfl
    omega
  · exact h

/-- If some whitespace consumption within the run bound lets the rest match,
tryWsPlus succeeds. -/
theorem tryWsPlus_some (cont : List Char → Option (List Char)) (s : List Char) :
    ∀ (bound j : Nat), 1 ≤ j → j ≤ bound → (cont (s.drop j)).isSome = true →
      (tryWsPlus cont s bound).isSome = true := by
  intro bound
  induction bound with
  | zero => intro j h1 h2 _; omega
  | succ n ih =>
    intro j h1 h2 hj
    rw [tryWsPlus_succ]
    cases hcont : cont (s.drop (n + 1)) with
    | some r => rfl
    | none =>
      have hjn : j ≤ n := by
        by_contra habs
        have : j = n + 1 := by omega
        rw [this, hcont] at hj
        cases hj
      exact ih j h1 hjn hj

/-- If some alternative matches and its continuation succeeds, tryAlts
succeeds. -/
theorem tryAlts_some (ci : Bool) (cont : List Char → Option (List Char)) :
    ∀ (alts : List (List Char)) (s : List Char),
      (∃ a ∈ alts, ∃ s1, ciStartsWith ci a s = some s1 ∧ (cont s1).isSome = true) →
      (tryAlts ci cont alts s).isSome = true := by
  intro alts
  induction alts with
  | nil =>
    rintro s ⟨a, ha, _⟩
    cases ha
  | cons a0 more ih =>
    rintro s ⟨a, ha, s1, hcw, hcont⟩
    rw [tryAlts_cons]
    cases hca0 : ciStartsWith ci a0 s with
    | some t1 =>
      show (match cont t1 with
        | some r => some r
        | none => tryAlts ci cont more s).isSome = true
      cases hcont0 : cont t1 with
      | some r => rfl
      | none =>
        show (tryAlts ci cont more s).isSome = true
        apply ih
        rcases List.mem_cons.mp ha with rfl | hmem
        · exfalso
          rw [hca0] at hcw
          have ht1 : t1 = s1 := by injection hcw
          rw [← ht1, hcont0] at hcont
          cases hcont
        · exact ⟨a, hmem, s1, hcw, hcont⟩
    | none =>
      show (tryAlts ci cont more s).isSome = true
      apply ih
      rcases List.mem_cons.mp ha with rfl | hmem
      · exfalso
        rw [hca0] at hcw
        cases hcw
      · exact ⟨a, hmem, s1, hcw, hcont⟩

/-- Bridging lemma: a case-insensitive occurrence of the literal phrase
word1-space-alt at the head of a text yields a consuming match of the
pattern word1 `\s+` (alternatives), the common shape of the boilerplate
phrase patterns. -/
theorem phrase_bridge (w1 a : List Char) (alts : List (List Char))
    (ha : a ∈ alts) (hw : w1 ≠ []) :
    ∀ (s r : List Char), ciStartsWith true (w1 ++ '\x20' :: a) s = some r →
      ∃ rem, matchPat ⟨true, [Tok.lit [w1], Tok.wsPlus, Tok.lit alts]⟩ s = some rem ∧
        rem.length < s.length := by
  intro s r h
  rw [ciStartsWith_append] at h
  cases h1 : ciStartsWith true w1 s with
  | none => rw [h1] at h; cases h
  | some s1 =>
    rw [h1] at h
    have h2 : ciStartsWith true ('\x20' :: a) s1 = some r := h
    cases s1 with
    | nil => cases h2
    | cons d s2 =>
      rw [ciStartsWith_cons] at h2
      by_cases hd : (if true then d.toLower == '\x20'.toLower else d == '\x20') = true
      swap
      · rw [if_neg hd] at h2; cases h2
      rw [if_pos hd] at h2
      have hdsp : d = '\x20' := by
        apply toLower_eq_space
        have hbeq : (d.toLower == '\x20'.toLower) = true := by simpa using hd
        have heq := eq_of_beq hbeq
        simpa using heq
      have hdws : pyIsSpace d = true := by rw [hdsp]; rfl
      -- the continuation after w1 and the whitespace: the literal alternatives
      have hcont3 : ((matchToksF true 1 [Tok.lit alts]) s2).isSome = true := by
        show (tryAlts true (matchToksF true 0 []) alts s2).isSome = true
        exact tryAlts_some true _ alts s2 ⟨a, ha, r, h2, rfl⟩
      -- the whitespace token succeeds starting from s1 = d :: s2
      have hrun : 1 ≤ ((d :: s2).takeWhile pyIsSpace).length := by
        rw [List.takeWhile_cons_of_pos hdws]
        simp
      have hcont2 : ((matchToksF true 2 [Tok.wsPlus, Tok.lit alts]) (d :: s2)).isSome = true := by
        show (tryWsPlus (matchToksF true 1 [Tok.lit alts]) (d :: s2)
          (((d :: s2).takeWhile pyIsSpace).length)).isSome = true
        exact tryWsPlus_some _ (d :: s2) _ 1 (Nat.le_refl 1) hrun hcont3
      obtain ⟨rem, hrem⟩ := Option.isSome_iff_exists.mp hcont2
      refine ⟨rem, ?_, ?_⟩
      · show tryAlts true (matchToksF true 2 [Tok.wsPlus, Tok.lit alts]) [w1] s = some rem
        rw [tryAlts_cons, h1]
        show (match matchToksF true 2 [Tok.wsPlus, Tok.lit alts] (d :: s2) with
          | some r0 => some r0
          | none => tryAlts true (matchToksF true 2 [Tok.wsPlus, Tok.lit alts]) [] s) = some rem
        rw [hrem]
      · have hr1 : rem.length ≤ (d :: s2).length := matchToksF_mono true 2 _ _ rem hrem
        have hr2 := ciStartsWith_length true w1 s (d :: s2) h1
        have hw1 : 1 ≤ w1.length := by
          cases w1 with
          | nil => exact absurd rfl hw
          | cons _ _ => simp
        omega

/-- A consuming match at some suffix makes hasMatch true. -/
theorem hasMatch_of_suffix (p : Pat) :
    ∀ (pre s2 : List Char),
      (∃ rem, matchPat p s2 = some rem ∧ rem.length < s2.length) →
      hasMatch p (pre ++ s2) = true := by
  intro pre
  induction pre with
  | nil =>
    rintro s2 ⟨rem, hm, hlt⟩
    cases s2 with
    | nil => simp at hlt
    | cons c cs =>
      rw [List.nil_append, hasMatch_cons, hm]
      show (decide (rem.length < cs.length + 1) || hasMatch p cs) = true
      have hdec : decide (rem.length < cs.length + 1) = true := by
        simp only [List.length_cons] at hlt
        exact decide_eq_true hlt
      rw [hdec]
      rfl
  | cons c pre' ih =>
    intro s2 hex
    rw [List.cons_append, hasMatch_cons, ih s2 hex]
    simp

/-- A positive phrase search decomposes the text around a matching suffix. -/
theorem containsPhraseCI_decomp (w : List Char) :
    ∀ s : List Char, containsPhraseCI w s = true →
      ∃ pre s2, s = pre ++ s2 ∧ (ciStartsWith true w s2).isSome = true := by
  intro s
  induction s with
  | nil => intro h; exact ⟨[], [], rfl, h⟩
  | cons c cs ih =>
    intro h
    have h' : ((ciStartsWith true w (c :: cs)).isSome || containsPhraseCI w cs) = true := h
    rcases Bool.or_eq_true_iff.mp h' with h1 | h2
    · exact ⟨[], c :: cs, rfl, h1⟩
    · obtain ⟨pre, s2, heq, hw2⟩ := ih h2
      exact ⟨c :: pre, s2, by rw [heq]; rfl, hw2⟩

/-- C4 counterexample: removal can splice the surrounding text into a new
occurrence of a boilerplate phrase: cleaning "SigSign inn in" yields
"Sign in", which contains the phrase "Sign in" case-insensitively. -/
theorem c4_boilerplate_counterexample :
    clean_content "SigSign inn in" = "Sign in" ∧
    containsPhraseCI ("Sign in").data (clean_content "SigSign inn in").data = true := by
  constructor
  · decide
  · decide

/-- C4 amended: for every input string whose cleaned output is unchanged by
a further boilerplate-removal pass (in particular whenever the deletions did
not splice new phrase occurrences together), the output contains no
case-insensitive occurrence of the boilerplate phrases "Sign in",
"Privacy Policy" or "Apply now". -/
theorem c4_boilerplate_amended :
    ∀ s : String, removePatterns (clean_content s) = clean_content s →
      containsPhraseCI ("Sign in").data (clean_content s).data = false ∧
      containsPhraseCI ("Privacy Policy").data (clean_content s).data = false ∧
      containsPhraseCI ("Apply now").data (clean_content s).data = false := by
  intro s h
  have hrp := congrArg String.data h
  rw [removePatterns_data] at hrp
  have hnomatch := removePatternsL_fix_no_match patterns_to_remove (clean_content s).data hrp
  refine ⟨?_, ?_, ?_⟩
  · by_contra habs
    rw [Bool.not_eq_false] at habs
    obtain ⟨pre, s2, heq, hw⟩ := containsPhraseCI_decomp _ _ habs
    obtain ⟨r, hr⟩ := Option.isSome_iff_exists.mp hw
    have hr2 : ciStartsWith true (("Sign").data ++ '\x20' :: ("in").data) s2 = some r := by
      rw [show ("Sign").data ++ '\x20' :: ("in").data = ("Sign in").data from rfl]
      exact hr
    have hb := phrase_bridge ("Sign").data ("in").data
      [("in").data, ("up").data, ("In").data, ("Up").data]
      (List.mem_cons_self _ _) (by decide) s2 r hr2
    have hm := hasMatch_of_suffix
      ⟨true, [Tok.lit [("Sign").data], Tok.wsPlus,
        Tok.lit [("in").data, ("up").data, ("In").data, ("Up").data]]⟩ pre s2 hb
    rw [← heq] at hm
    have hmem : (⟨true, [Tok.lit [("Sign").data], Tok.wsPlus,
        Tok.lit [("in").data, ("up").data, ("In").data, ("Up").data]]⟩ : Pat) ∈
        patterns_to_remove := by
      unfold patterns_to_remove
      exact List.mem_cons_of_mem _ (List.mem_cons_of_mem _ (List.mem_cons_of_mem _
        (List.mem_cons_self _ _)))
    have hfalse := hnomatch _ hmem
    rw [hm] at hfalse
    cases hfalse
  · by_contra habs
    rw [Bool.not_eq_false] at habs
    obtain ⟨pre, s2, heq, hw⟩ := containsPhraseCI_decomp _ _ habs
    obtain ⟨r, hr⟩ := Option.isSome_iff_exists.mp hw
    have hr2 : ciStartsWith true (("Privacy").data ++ '\x20' :: ("Policy").data) s2 = some r := by
      rw [show ("Privacy").data ++ '\x20' :: ("Policy").data = ("Privacy Policy").data from rfl]
      exact hr
    have hb := phrase_bridge ("Privacy").data ("Policy").data [("Policy").data]
      (List.mem_cons_self _ _) (by decide) s2 r hr2
    have hm := hasMatch_of_suffix
      ⟨true, [Tok.lit [("Privacy").data], Tok.wsPlus, Tok.lit [("Policy").data]]⟩ pre s2 hb
    rw [← heq] at hm
    have hmem : (⟨true, [Tok.lit [("Privacy").data], Tok.wsPlus,
        Tok.lit [("Policy").data]]⟩ : Pat) ∈ patterns_to_remove := by
      unfold patterns_to_remove
      exact List.mem_cons_of_mem _ (List.mem_cons_self _ _)
    have hfalse := hnomatch _ hmem
    rw [hm] at hfalse
    cases hfalse
  · by_contra habs
    rw [Bool.not_eq_false] at habs
    obtain ⟨pre, s2, heq, hw⟩ := containsPhraseCI_decomp _ _ habs
    obtain ⟨r, hr⟩ := Option.isSome_iff_exists.mp hw
    have hr2 : ciStartsWith true (("Apply").data ++ '\x20' :: ("now").data) s2 = some r := by
      rw [show ("Apply").data ++ '\x20' :: ("now").data = ("Apply now").data from rfl]
      exact hr
    have hb := phrase_bridge ("Apply").data ("now").data [("now").data, ("online").data]
      (List.mem_cons_self _ _) (by decide) s2 r hr2
    have hm := hasMatch_of_suffix
      ⟨true, [Tok.lit [("Apply").data], Tok.wsPlus,
        Tok.lit [("now").data, ("online").data]]⟩ pre s2 hb
    rw [← heq] at hm
    have hmem : (⟨true, [Tok.lit [("Apply").data], Tok.wsPlus,
        Tok.lit [("now").data, ("online").data]]⟩ : Pat) ∈ patterns_to_remove := by
      unfold patterns_to_remove
      exact List.mem_cons_of_mem _ (List.mem_cons_of_mem _ (List.mem_cons_of_mem _
        (List.mem_cons_of_mem _ (List.mem_cons_of_mem _ (List.mem_cons_of_mem _
          (List.mem_cons_of_mem _ (List.mem_cons_self _ _)))))))
    have hfalse := hnomatch _ hmem
    rw [hm] at hfalse
    cases hfalse

/-- Witness for C4 at a concrete input whose cleaned output is a fixed point
of the boilerplate removal. -/
theorem c4_boilerplate_amended_witness :
    containsPhraseCI ("Sign in").data (clean_content "Hello world").data = false ∧
    containsPhraseCI ("Privacy Policy").data (clean_content "Hello world").data = false ∧
    containsPhraseCI ("Apply now").data (clean_content "Hello world").data = false :=
  c4_boilerplate_amended "Hello world" (by decide)

/-!
Validation of the embedding on concrete inputs, including the behaviours
asserted by the repository's own unit tests (scrapper_test.py and
gemini_test.py).
-/

example : 100 < c5DescText.length := by decide
example : 100 < c5DetailText.length := by decide
example : jsonLoads "\x7b\"company_name\": \"X\"\x7d" = some (.obj [("company_name", .str "X")]) := rfl
example : jsonLoads "This is not valid JSON" = none := rfl
example : jsonLoads " [1, true, null] " = some (.arr [.num "1", .boolean true, .null]) := rfl
example : clean_json_response "```json\n\x7b\"a\": 1\x7d\n```" = "\x7b\"a\": 1\x7d" := rfl
example : clean_json_response "Here is the JSON:\n\x7b\"a\": 1\x7d\nEnd of response" = "\x7b\"a\": 1\x7d" := rfl
example :
    pyLookup (create_default_job_info "Company: Amazing Tech\nPosition: Developer" "u")
      "company_name" = some (.str "Amazing Tech") := rfl
example :
    pyLookup (create_default_job_info "Company: Amazing Tech\nPosition: Developer" "u")
      "position_title" = some (.str "Developer") := rfl
example : hasAll14 (analyze_job_posting "text" "url" (.responded "This is not valid JSON")) = true := rfl
example : is_valid_url "https://example.com" = true := by decide
example : is_valid_url "http://example.com/path" = true := by decide
example : is_valid_url "not-a-url" = false := by decide
example : is_valid_url "example.com" = false := by decide
example : is_valid_url "" = false := by decide
example : is_valid_url "http://" = false := by decide
example : is_valid_url "https://example.com/jobs?id=123&source=google" = true := by decide
example : (pyUrlsplit "https://www.linkedin.com/jobs/view/123").toOption.map SplitResult.netloc = some "www.linkedin.com" := by decide
example : get_site_selectors "www.unknown-job-site.com" = [] := rfl
example : collapseWs "a  b\n\nc".data = "a b c".data := by decide
example : pyStrip "  ab  " = "ab" := by decide
example : strContains "linkedin.com/jobs" "linkedin.com" = true := by decide
example : splitWs "a  bc ".data = ["a".data, "bc".data] := by decide
example : joinSep ", " ["a", "b", "c"] = "a, b, c" := rfl
example : lowerStr "AbC" = "abc" := rfl
example : clean_content "This  has   multiple    spaces\n\nand\n\nnewlines" = "This has multiple spaces and newlines" := by decide
example : clean_content "Great job! Cookie Policy Sign in Privacy Policy Apply now Save this job" = "Great job!" := by decide
example : clean_content "SIGN IN sign up PRIVACY POLICY Terms of Service" = "" := by decide
example : clean_content "SigSign inn in" = "Sign in" := by decide
example : clean_content "Sign in" = "" := by decide
